import Mathlib

/-!
The yb build dispatcher and toolchain providers

A shallow embedding of the build command (`build.go`) and of the toolchain
providers (`buildpacks/*.go`), with the properties of the dispatcher and of
the providers stated over it.

Go strings are modelled as lists of characters (`GoString`). Every separator,
prefix and cutset the program uses is ASCII, so cutting a well-formed UTF-8
text at bytes and cutting it at characters give the same pieces.
Console output (`fmt.Printf`, the logger) and `time.Sleep` have no effect on
what the functions return and are left out.
-/

namespace Yb

/-! ## Go values -/

/-- Go `string`. -/
abbrev GoString := List Char

/-- Go `error`: `none` is `nil`. -/
abbrev GoError := Option GoString

/-! ## Package `strings` of the Go standard library -/

/-- Go `strings.HasPrefix`. -/
def strings.HasPrefix (s pre : GoString) : Bool :=
  pre.isPrefixOf s

/-- Go `strings.Cut` for a one-byte separator: the text before and after the
first occurrence of `sep`, or `none` when `sep` does not occur
(`strings.Index` returning a negative index). -/
def strings.Cut (sep : Char) : GoString → Option (GoString × GoString)
  | [] => none
  | c :: s =>
    if c = sep then some ([], s)
    else match strings.Cut sep s with
      | none => none
      | some (a, b) => some (c :: a, b)

/-- Go `strings.Count` for a one-byte separator. -/
def strings.Count (s : GoString) (sep : Char) : Nat :=
  s.count sep

/-- The loop of Go `genSplit`: cut at the first separator at most `n` times,
the rest of the text being the last piece. -/
def strings.genSplit (sep : Char) : Nat → GoString → List GoString
  | 0, s => [s]
  | n + 1, s =>
    match strings.Cut sep s with
    | none => [s]
    | some (a, b) => a :: strings.genSplit sep n b

/-- Go `strings.SplitN(s, sep, n)` for a one-byte separator and `n ≥ 0`:
no piece for `n = 0`, otherwise at most `n` pieces (capped at `len(s)+1`), the
last one being the unsplit remainder. -/
def strings.SplitN (s : GoString) (sep : Char) (n : Nat) : List GoString :=
  if n = 0 then [] else strings.genSplit sep (min n (s.length + 1) - 1) s

/-- Go `strings.Split(s, sep)` for a one-byte separator: `genSplit` with
`n = Count(s, sep) + 1` pieces. -/
def strings.Split (s : GoString) (sep : Char) : List GoString :=
  strings.genSplit sep (strings.Count s sep + 1 - 1) s

/-- Scan of Go `strings.Replace(s, old, new, -1)` for a non-empty `old`:
`skip` is the number of bytes of a matched `old` still to be passed over. -/
def strings.replaceFrom (old new : GoString) : Nat → GoString → GoString
  | _, [] => []
  | skip + 1, _ :: s => strings.replaceFrom old new skip s
  | 0, c :: s =>
    if old.isPrefixOf (c :: s) then new ++ strings.replaceFrom old new (old.length - 1) s
    else c :: strings.replaceFrom old new 0 s

/-- Go `strings.Replace(s, old, new, -1)` for a non-empty `old`: every
non-overlapping occurrence of `old`, found left to right, becomes `new`. -/
def strings.Replace (s old new : GoString) : GoString :=
  strings.replaceFrom old new 0 s

/-- Go `strings.TrimLeft(s, cutset)`: drop every leading character that is in
`cutset`. -/
def strings.TrimLeft (s cutset : GoString) : GoString :=
  s.dropWhile (fun c => decide (c ∈ cutset))

/-- Go `strings.TrimPrefix(s, prefix)`: `s` without the leading `prefix`, or `s`
itself when it does not start with it. -/
def strings.TrimPrefix (s pre : GoString) : GoString :=
  if strings.HasPrefix s pre then s.drop pre.length else s

/-- Go `strings.Join(elems, sep)`. -/
def strings.Join (elems : List GoString) (sep : GoString) : GoString :=
  sep.intercalate elems

/-! ## Package `path/filepath` of the Go standard library (Unix) -/

/-- One step of `filepath.Clean` over the path elements: `out` holds the
elements written so far, last one first. Empty and `.` elements are dropped;
`..` removes the last real element, is kept in front of an unrooted path and
is dropped at the root. -/
def filepath.cleanStep (rooted : Bool) (out : List GoString) (e : GoString) : List GoString :=
  if e = [] ∨ e = ".".toList then out
  else if e = "..".toList then
    match out with
    | [] => if rooted then [] else [e]
    | last :: before => if last = "..".toList then e :: last :: before else before
  else e :: out

/-- Go `filepath.Clean`. -/
def filepath.Clean (path : GoString) : GoString :=
  match path with
  | [] => ".".toList
  | c :: _ =>
    let rooted := decide (c = '/')
    let out := (strings.genSplit '/' path.length path).foldl (filepath.cleanStep rooted) []
    let body := strings.Join out.reverse "/".toList
    if rooted then '/' :: body
    else if body = [] then ".".toList else body

/-- Go `filepath.Join`: the elements from the first non-empty one on, joined
by the separator and cleaned; the empty string when all are empty. -/
def filepath.Join : List GoString → GoString
  | [] => []
  | e :: rest => if e = [] then filepath.Join rest else filepath.Clean (strings.Join (e :: rest) "/".toList)

/-! ## `types.go` -/

/-- The struct `ContainerDefinition` of `types.go`. -/
structure ContainerDefinition where
  Image : GoString := []
  Mounts : List GoString := []
  Ports : List GoString := []
  Environment : List GoString := []
  Command : GoString := []
deriving DecidableEq, Repr

/-- The struct `BuildPhase` of `types.go`; the default value of every field is
Go's zero value. -/
structure BuildPhase where
  Container : ContainerDefinition := {}
  Tools : List GoString := []
  Commands : List GoString := []
  Artifacts : List GoString := []
  Sandbox : Bool := false
  Root : GoString := []
  Environment : List GoString := []
  Tags : List (GoString × GoString) := []
deriving DecidableEq, Repr

/-- The fields of `BuildInstructions` (`types.go`) the build command reads.
`BuildTargets` is a Go map, held as a list of key and value pairs. -/
structure BuildInstructions where
  Sandbox : Bool := false
  BuildTargets : List (GoString × BuildPhase) := []
  Build : BuildPhase := {}
deriving DecidableEq, Repr

/-! ## `build.go`: the dispatcher -/

/-- The struct `CommandTimer`; times are readings of the clock. -/
structure CommandTimer where
  Command : GoString
  StartTime : Nat
  EndTime : Nat
deriving DecidableEq, Repr

/-- The struct `BuildConfiguration`. -/
structure BuildConfiguration where
  Target : BuildPhase := {}
  TargetDir : GoString := []
  Sandboxed : Bool := false
  ExecPrefix : GoString := []
deriving DecidableEq, Repr

/-- The struct `BuildContainer`, as far as the dispatcher reads it. -/
structure BuildContainer where
  Id : GoString := []
deriving DecidableEq, Repr

/-- The struct `BuildContainerOpts` without its workspace handle. -/
structure BuildContainerOpts where
  ContainerOpts : ContainerDefinition := {}
  PackageName : GoString := []
deriving DecidableEq, Repr

/-- One call of an executor, as an instrumented executor records it. -/
inductive Invocation where
  | ExecToStdout (cmdString targetDir : GoString)
  | ExecInSandbox (cmdString targetDir : GoString)
  | ContainerExecToStdout (id cmdString : GoString)
deriving DecidableEq, Repr

/-- The command text an executor was called with. -/
def Invocation.command : Invocation → GoString
  | .ExecToStdout c _ => c
  | .ExecInSandbox c _ => c
  | .ContainerExecToStdout _ c => c

/-- One call of the container collaborator before the command loop. -/
inductive LifecycleCall where
  | FindContainer
  | RemoveContainerById (id : GoString)
  | NewContainer
  | Start (id : GoString)
deriving DecidableEq, Repr

/-- The collaborators of the dispatcher, which live outside `build.go`: the
clock, the three executors and the container runtime. `clock n` is the n-th
reading of `time.Now()` and `outcome n` the error value the n-th executor call
of the run returns (both counted from 0); a run being sequential, ranging over
all `outcome` covers every behaviour of the executors. -/
structure Platform where
  clock : Nat → Nat
  outcome : Nat → GoError
  FindContainer : BuildContainerOpts → Option BuildContainer × GoError
  RemoveContainerById : GoString → GoError
  NewContainer : BuildContainerOpts → BuildContainer × GoError
  Start : BuildContainer → GoError

/-- What a run has done to the outside so far: the number of clock readings,
the executor calls and the container lifecycle calls, oldest first. -/
structure World where
  reads : Nat := 0
  dispatched : List Invocation := []
  lifecycle : List LifecycleCall := []
deriving DecidableEq, Repr

/-- Go `time.Now()`. -/
def Platform.Now (P : Platform) (w : World) : Nat × World :=
  (P.clock w.reads, { w with reads := w.reads + 1 })

/-- One executor call: it is recorded and returns its outcome. -/
def Platform.exec (P : Platform) (inv : Invocation) (w : World) : GoError × World :=
  (P.outcome w.dispatched.length, { w with dispatched := w.dispatched ++ [inv] })

/-- `fmt.Sprintf("%s %s", config.ExecPrefix, cmdString)` under
`len(config.ExecPrefix) > 0`, as both command loops start. -/
def withExecPrefix (config : BuildConfiguration) (cmdString : GoString) : GoString :=
  if config.ExecPrefix.length > 0 then config.ExecPrefix ++ " ".toList ++ cmdString else cmdString

/-- The command loop of `RunCommands`, from the state it has before a command:
the commands still to run, `targetDir` and `stepTimes`. -/
def RunCommands.loop (P : Platform) (config : BuildConfiguration) :
    List GoString → GoString → List CommandTimer → World → (List CommandTimer × GoError) × World
  | [], _, stepTimes, w => ((stepTimes, none), w)
  | cmdString :: rest, targetDir, stepTimes, w =>
    let (stepStartTime, w) := P.Now w
    let cmdString := withExecPrefix config cmdString
    let ((targetDir, err), w) :=
      if strings.HasPrefix cmdString "cd ".toList then
        let parts := strings.SplitN cmdString ' ' 2
        let dir := filepath.Join [targetDir, parts.getD 1 []]
        ((dir, (none : GoError)), w)
      else
        let targetDir :=
          if config.Target.Root ≠ [] then filepath.Join [targetDir, config.Target.Root] else targetDir
        if config.Sandboxed then
          let (err, w) := P.exec (.ExecInSandbox cmdString targetDir) w
          ((targetDir, err), w)
        else
          let (err, w) := P.exec (.ExecToStdout cmdString targetDir) w
          ((targetDir, err), w)
    match err with
    | some e => ((stepTimes, some e), w)
    | none =>
      let (stepEndTime, w) := P.Now w
      let cmdTimer : CommandTimer :=
        { Command := cmdString, StartTime := stepStartTime, EndTime := stepEndTime }
      RunCommands.loop P config rest targetDir (stepTimes ++ [cmdTimer]) w

/-- The function `RunCommands` of `build.go`. -/
def RunCommands (P : Platform) (config : BuildConfiguration) (w : World) :
    (List CommandTimer × GoError) × World :=
  RunCommands.loop P config config.Target.Commands config.TargetDir [] w

/-- The command loop of `RunCommandsInContainer`, from the state it has before
a command. The error of a failed command is built by
`fmt.Errorf("Aborting build, unable to run %s: %v\n")`, to which the source
passes no operand. -/
def RunCommandsInContainer.loop (P : Platform) (config : BuildConfiguration)
    (buildContainer : BuildContainer) :
    List GoString → List CommandTimer → World → (List CommandTimer × GoError) × World
  | [], stepTimes, w => ((stepTimes, none), w)
  | cmdString :: rest, stepTimes, w =>
    let (stepStartTime, w) := P.Now w
    let cmdString := withExecPrefix config cmdString
    let (err, w) := P.exec (.ContainerExecToStdout buildContainer.Id cmdString) w
    match err with
    | some _ =>
      ((stepTimes, some "Aborting build, unable to run %!s(MISSING): %!v(MISSING)\n".toList), w)
    | none =>
      let (stepEndTime, w) := P.Now w
      let cmdTimer : CommandTimer :=
        { Command := cmdString, StartTime := stepStartTime, EndTime := stepEndTime }
      RunCommandsInContainer.loop P config buildContainer rest (stepTimes ++ [cmdTimer]) w

/-- A container lifecycle call is recorded. -/
def World.call (w : World) (c : LifecycleCall) : World :=
  { w with lifecycle := w.lifecycle ++ [c] }

/-- The function `RunCommandsInContainer` of `build.go`. -/
def RunCommandsInContainer (P : Platform) (config : BuildConfiguration)
    (containerOpts : BuildContainerOpts) (w : World) : (List CommandTimer × GoError) × World :=
  let stepTimes : List CommandTimer := []
  let target := config.Target
  let (existing, err) := P.FindContainer containerOpts
  let w := w.call .FindContainer
  match err with
  | some e => ((stepTimes, some e), w)
  | none =>
    let removed : GoError × World :=
      match existing with
      | some found => (P.RemoveContainerById found.Id, w.call (.RemoveContainerById found.Id))
      | none => (none, w)
    match removed with
    | (some e, w) => ((stepTimes, some e), w)
    | (none, w) =>
      let (buildContainer, err) := P.NewContainer containerOpts
      let w := w.call .NewContainer
      match err with
      | some e => ((stepTimes, some e), w)
      | none =>
        let err := P.Start buildContainer
        let w := w.call (.Start buildContainer.Id)
        match err with
        | some e => ((stepTimes, some e), w)
        | none => RunCommandsInContainer.loop P config buildContainer target.Commands stepTimes w

/-! ## `build.go`: the build command -/

/-- The process environment: the value of each variable that is set. -/
abbrev Environ := GoString → Option GoString

/-- Go `os.Getenv`: the empty string for a variable that is not set. -/
def os.Getenv (env : Environ) (key : GoString) : GoString :=
  (env key).getD []

/-- Go `os.Setenv` (Unix): an empty key, a key with `=` or a NUL byte and a
value with a NUL byte are refused with an error and change nothing. -/
def os.Setenv (env : Environ) (key value : GoString) : Environ × GoError :=
  if key = [] ∨ '=' ∈ key ∨ Char.ofNat 0 ∈ key ∨ Char.ofNat 0 ∈ value then
    (env, some "setenv: invalid argument".toList)
  else
    (fun k => if k = key then some value else env k, none)

/-- The struct `buildCmd`: the flags of the build command. -/
structure buildCmd where
  ExecPrefix : GoString := []
  NoContainer : Bool := false
deriving DecidableEq, Repr

/-- Go `subcommands.ExitStatus`. -/
inductive ExitStatus where
  | ExitSuccess
  | ExitFailure
deriving DecidableEq, Repr

/-- What `Execute` has obtained from the workspace when it reaches the phase
selection: the package name and directory, the result of
`LoadPackageManifest`, and the process environment that
`SetupBuildDependencies` leaves. -/
structure Loaded where
  targetPackage : GoString := []
  targetDir : GoString := []
  manifest : Except GoString BuildInstructions := .ok {}
  env : Environ := fun _ => none

/-- What a build leaves behind. -/
structure Outcome where
  status : ExitStatus
  stepTimes : List CommandTimer
  buildError : GoError
  env : Environ
  world : World

/-- The loop of `Execute` over `target.Environment`. An index expression
`parts[1]` out of range is a run-time panic: `none`. The error of
`os.Setenv` is not looked at. -/
def buildCmd.Execute.environment (targetDir : GoString) : List GoString → Environ → Option Environ
  | [], env => some env
  | envString :: rest, env =>
    let parts := strings.Split envString '='
    match parts.get? 0, parts.get? 1 with
    | some key, some value =>
      let value := strings.Replace value "{PKGDIR}".toList targetDir
      buildCmd.Execute.environment targetDir rest (os.Setenv env key value).1
    | _, _ => none

/-- The method `buildCmd.Execute` of `build.go`, from the loading of the
manifest on; `args` is `f.Args()`. `none` is a run-time panic. -/
def buildCmd.Execute (P : Platform) (b : buildCmd) (args : List GoString) (l : Loaded)
    (w : World) : Option Outcome :=
  let buildTarget := if args.length > 0 then args.getD 0 [] else "default".toList
  let targetDir := l.targetDir
  match l.manifest with
  | .error _ => some ⟨.ExitFailure, [], none, l.env, w⟩
  | .ok instructions =>
    let target : BuildPhase := {}
    let sandboxed := instructions.Sandbox || target.Sandbox
    let target :=
      if instructions.BuildTargets.length = 0 then instructions.Build
      else (instructions.BuildTargets.lookup buildTarget).getD {}
    match buildCmd.Execute.environment targetDir target.Environment l.env with
    | none => none
    | some env =>
      let config : BuildConfiguration :=
        { Target := target, Sandboxed := sandboxed, ExecPrefix := b.ExecPrefix,
          TargetDir := targetDir }
      let ((stepTimes, buildError), w) :=
        if target.Container.Image ≠ [] && !b.NoContainer then
          let containerOpts : BuildContainerOpts :=
            { ContainerOpts := target.Container, PackageName := l.targetPackage }
          RunCommandsInContainer P config containerOpts w
        else
          RunCommands P config w
      if buildError ≠ none then some ⟨.ExitFailure, stepTimes, buildError, env, w⟩
      else some ⟨.ExitSuccess, stepTimes, buildError, env, w⟩

/-! ## Package `golang.org/x/mod/semver`, which `flutter.go` imports -/

/-- The test `'0' <= c && c <= '9'`. -/
def semver.isDigit (c : Char) : Bool :=
  decide ('0' ≤ c) && decide (c ≤ '9')

/-- The struct `parsed`: the parts of a semantic version, as text. -/
structure semver.parsed where
  major : GoString := []
  minor : GoString := []
  patch : GoString := []
  short : GoString := []
  prerelease : GoString := []
  build : GoString := []
deriving DecidableEq, Repr

/-- The function `parseInt`: the leading decimal numeral of `v` and the rest;
no numeral when `v` does not start with a digit or starts with a superfluous
zero. -/
def semver.parseInt (v : GoString) : Option (GoString × GoString) :=
  match v with
  | [] => none
  | c :: _ =>
    if c < '0' ∨ '9' < c then none
    else
      let t := v.takeWhile semver.isDigit
      if c = '0' ∧ t.length ≠ 1 then none
      else some (t, v.dropWhile semver.isDigit)

/-- The function `isIdentChar`. -/
def semver.isIdentChar (c : Char) : Bool :=
  (decide ('A' ≤ c) && decide (c ≤ 'Z')) || (decide ('a' ≤ c) && decide (c ≤ 'z')) ||
    (decide ('0' ≤ c) && decide (c ≤ '9')) || decide (c = '-')

/-- The function `isBadNum`: all digits, more than one, the first a zero. -/
def semver.isBadNum (v : GoString) : Bool :=
  decide ((v.takeWhile semver.isDigit).length = v.length) &&
    decide ((v.takeWhile semver.isDigit).length > 1) && decide (v.head? = some '0')

/-- The loop of `parsePrerelease` from position `i` on: `ident` is `v[start:i]`
and `taken` is `v[:i]`. -/
def semver.parsePrerelease.loop : GoString → GoString → GoString → Option (GoString × GoString)
  | [], ident, taken =>
    if ident = [] ∨ semver.isBadNum ident then none else some (taken, [])
  | c :: v, ident, taken =>
    if c = '+' then
      if ident = [] ∨ semver.isBadNum ident then none else some (taken, c :: v)
    else if !semver.isIdentChar c ∧ c ≠ '.' then none
    else if c = '.' then
      if ident = [] ∨ semver.isBadNum ident then none
      else semver.parsePrerelease.loop v [] (taken ++ [c])
    else semver.parsePrerelease.loop v (ident ++ [c]) (taken ++ [c])

/-- The function `parsePrerelease`. -/
def semver.parsePrerelease (v : GoString) : Option (GoString × GoString) :=
  match v with
  | [] => none
  | c :: rest => if c ≠ '-' then none else semver.parsePrerelease.loop rest [] [c]

/-- The loop of `parseBuild` from position `i` on: `ident` is `v[start:i]` and
`taken` is `v[:i]`. -/
def semver.parseBuild.loop : GoString → GoString → GoString → Option (GoString × GoString)
  | [], ident, taken => if ident = [] then none else some (taken, [])
  | c :: v, ident, taken =>
    if !semver.isIdentChar c ∧ c ≠ '.' then none
    else if c = '.' then
      if ident = [] then none else semver.parseBuild.loop v [] (taken ++ [c])
    else semver.parseBuild.loop v (ident ++ [c]) (taken ++ [c])

/-- The function `parseBuild`. -/
def semver.parseBuild (v : GoString) : Option (GoString × GoString) :=
  match v with
  | [] => none
  | c :: rest => if c ≠ '+' then none else semver.parseBuild.loop rest [] [c]

/-- The end of `parse`, after the patch number: an optional pre-release, an
optional build tag, and nothing else. -/
def semver.parse.tail (p : semver.parsed) (v : GoString) : Option semver.parsed :=
  let afterPre : Option (semver.parsed × GoString) :=
    if v.head? = some '-' then
      match semver.parsePrerelease v with
      | none => none
      | some (t, rest) => some ({ p with prerelease := t }, rest)
    else some (p, v)
  match afterPre with
  | none => none
  | some (p, v) =>
    let afterBuild : Option (semver.parsed × GoString) :=
      if v.head? = some '+' then
        match semver.parseBuild v with
        | none => none
        | some (t, rest) => some ({ p with build := t }, rest)
      else some (p, v)
    match afterBuild with
    | none => none
    | some (p, v) => if v ≠ [] then none else some p

/-- The function `parse`: `none` stands for `ok == false`. The shorthands
`vMAJOR` and `vMAJOR.MINOR` are completed with zeros. -/
def semver.parse (v : GoString) : Option semver.parsed :=
  match v with
  | [] => none
  | c :: v =>
    if c ≠ 'v' then none
    else match semver.parseInt v with
      | none => none
      | some (major, v) =>
        match v with
        | [] => some { major := major, minor := "0".toList, patch := "0".toList,
                       short := ".0.0".toList }
        | c :: v =>
          if c ≠ '.' then none
          else match semver.parseInt v with
            | none => none
            | some (minor, v) =>
              match v with
              | [] => some { major := major, minor := minor, patch := "0".toList,
                             short := ".0".toList }
              | c :: v =>
                if c ≠ '.' then none
                else match semver.parseInt v with
                  | none => none
                  | some (patch, v) =>
                    semver.parse.tail { major := major, minor := minor, patch := patch } v

/-- The function `IsValid`. -/
def semver.IsValid (v : GoString) : Bool :=
  (semver.parse v).isSome

/-- Go `x < y` on strings: the order of the first byte that differs, a proper
prefix being smaller. -/
def GoString.less : GoString → GoString → Bool
  | [], [] => false
  | [], _ :: _ => true
  | _ :: _, [] => false
  | a :: x, b :: y => if a < b then true else if b < a then false else GoString.less x y

/-- The function `compareInt`: decimal numerals compared by length, then as
text. -/
def semver.compareInt (x y : GoString) : Int :=
  if x = y then 0
  else if x.length < y.length then -1
  else if x.length > y.length then 1
  else if GoString.less x y then -1 else 1

/-- The function `nextIdent`: the text before the first `.` and the rest. -/
def semver.nextIdent (x : GoString) : GoString × GoString :=
  (x.takeWhile (fun c => c ≠ '.'), x.dropWhile (fun c => c ≠ '.'))

/-- The function `isNum`. -/
def semver.isNum (v : GoString) : Bool :=
  v.all semver.isDigit

/-- The loop of `comparePrerelease`; each round shortens `x`, so `len(x)`
rounds are enough. -/
def semver.comparePrerelease.loop : Nat → GoString → GoString → Int
  | 0, x, _ => if x = [] then -1 else 1
  | n + 1, x, y =>
    if x ≠ [] ∧ y ≠ [] then
      let (dx, x) := semver.nextIdent (x.drop 1)
      let (dy, y) := semver.nextIdent (y.drop 1)
      if dx ≠ dy then
        let ix := semver.isNum dx
        let iy := semver.isNum dy
        if ix ≠ iy then (if ix then -1 else 1)
        else if ix ∧ dx.length < dy.length then -1
        else if ix ∧ dx.length > dy.length then 1
        else if GoString.less dx dy then -1 else 1
      else semver.comparePrerelease.loop n x y
    else if x = [] then -1 else 1

/-- The function `comparePrerelease`. -/
def semver.comparePrerelease (x y : GoString) : Int :=
  if x = y then 0
  else if x = [] then 1
  else if y = [] then -1
  else semver.comparePrerelease.loop x.length x y

/-- The function `Compare`: an invalid version is below every valid one and
equal to every invalid one. -/
def semver.Compare (v w : GoString) : Int :=
  match semver.parse v, semver.parse w with
  | none, none => 0
  | none, some _ => -1
  | some _, none => 1
  | some pv, some pw =>
    if semver.compareInt pv.major pw.major ≠ 0 then semver.compareInt pv.major pw.major
    else if semver.compareInt pv.minor pw.minor ≠ 0 then semver.compareInt pv.minor pw.minor
    else if semver.compareInt pv.patch pw.patch ≠ 0 then semver.compareInt pv.patch pw.patch
    else semver.comparePrerelease pv.prerelease pw.prerelease

/-! ## `buildpacks/flutter.go`: the version in the download URL -/

/-- The function `downloadURLVersion` of `buildpacks/flutter.go`. -/
def downloadURLVersion (version : GoString) : GoString :=
  let version_1_17_0 := "v1.17.0".toList
  let compVersion := if !strings.HasPrefix version "v".toList then "v".toList ++ version else version
  if semver.Compare compVersion version_1_17_0 < 0 then compVersion
  else strings.TrimLeft compVersion "v".toList

/-- The value of a decimal numeral. -/
def semver.numeral (t : GoString) : Nat :=
  t.foldl (fun n c => 10 * n + (c.toNat - '0'.toNat)) 0

/-- Semantic-version precedence below the release `M.m.q`, in the words of the
Semantic Versioning rules: major, minor and patch are compared as numbers, in
this order, and a version with the same three numbers and a pre-release tag
precedes the release. -/
def semver.parsed.below (p : semver.parsed) (M m q : Nat) : Prop :=
  semver.numeral p.major < M ∨ (semver.numeral p.major = M ∧
    (semver.numeral p.minor < m ∨ (semver.numeral p.minor = m ∧
      (semver.numeral p.patch < q ∨ (semver.numeral p.patch = q ∧ p.prerelease ≠ [])))))

/-! ## `buildpacks`: the toolchain providers -/

/-- The struct `BuildToolSpec` without its handle to the install target. -/
structure BuildToolSpec where
  Version : GoString := []
  SharedCacheDir : GoString := []
  PackageCacheDir : GoString := []
deriving DecidableEq, Repr

/-- The struct `runtime.Process`, as far as the providers fill it. -/
structure Process where
  Command : GoString := []
  Directory : GoString := []
deriving DecidableEq, Repr

/-- One call of a provider to the install target that fetches, unpacks, creates
or builds. -/
inductive TargetCall where
  | DownloadFile (url : GoString)
  | Unarchive (src dst : GoString)
  | MkdirAsNeeded (dir : GoString)
  | Run (p : Process)
deriving DecidableEq, Repr

/-- The install target as the providers see it: the paths that exist and the
calls made to it so far, oldest first. -/
structure InstallTarget where
  paths : List GoString := []
  calls : List TargetCall := []
deriving DecidableEq, Repr

/-- The collaborators of the providers, which live outside `buildpacks`: the
tools directory, the detected platform, and what a download, an extraction and
a process give: their result and the paths they leave on the target, also
when they fail. -/
structure Runtime where
  ToolsDir : GoString
  OS : GoString
  Arch : GoString
  DownloadFile : GoString → GoString × GoError
  Unarchive : GoString → GoString → List GoString × GoError
  Run : Process → List GoString × GoError

/-- The call `t.PathExists(ctx, path)`; also `os.Stat(path)` returning no
error. -/
def InstallTarget.PathExists (t : InstallTarget) (path : GoString) : Bool :=
  decide (path ∈ t.paths)

/-- The call `t.DownloadFile(ctx, url)`; also `DownloadFileWithCache(url)`. -/
def Runtime.download (R : Runtime) (url : GoString) (t : InstallTarget) :
    (GoString × GoError) × InstallTarget :=
  (R.DownloadFile url, { t with calls := t.calls ++ [.DownloadFile url] })

/-- The call `t.Unarchive(ctx, src, dst)`; also `archiver.Unarchive(src, dst)`. -/
def Runtime.unarchive (R : Runtime) (src dst : GoString) (t : InstallTarget) :
    GoError × InstallTarget :=
  ((R.Unarchive src dst).2,
    { paths := t.paths ++ (R.Unarchive src dst).1, calls := t.calls ++ [.Unarchive src dst] })

/-- The call `t.MkdirAsNeeded(ctx, dir)`: the directory exists afterwards. -/
def InstallTarget.MkdirAsNeeded (t : InstallTarget) (dir : GoString) : InstallTarget :=
  { paths := t.paths ++ [dir], calls := t.calls ++ [.MkdirAsNeeded dir] }

/-- The call `t.Run(ctx, p)`. -/
def Runtime.run (R : Runtime) (p : Process) (t : InstallTarget) : GoError × InstallTarget :=
  ((R.Run p).2, { paths := t.paths ++ (R.Run p).1, calls := t.calls ++ [.Run p] })

/-- The scan of `TemplateToString`: `field` is the name read so far inside
an action. -/
def TemplateToString.expand (data : List (GoString × GoString)) :
    GoString → Option GoString → Except GoString GoString
  | [], none => .ok []
  | [], some _ => .error "template: unclosed action".toList
  | '{' :: '{' :: '.' :: s, none => TemplateToString.expand data s (some [])
  | '}' :: '}' :: s, some field =>
    match data.lookup field, TemplateToString.expand data s none with
    | some value, .ok out => .ok (value ++ out)
    | some _, .error e => .error e
    | none, _ => .error ("template: no field ".toList ++ field)
  | c :: s, none =>
    match TemplateToString.expand data s none with
    | .ok out => .ok (c :: out)
    | .error e => .error e
  | c :: s, some field => TemplateToString.expand data s (some (field ++ [c]))

/-- Modelled from the spec: `TemplateToString` of package `plumbing`, which is
not under `src/`: "template substitution", every action `{{.Field}}` of the
template text being replaced by the text of that field of the data; the empty
string and an error when the template cannot be executed. -/
def TemplateToString (templateText : GoString) (data : List (GoString × GoString)) :
    GoString × GoError :=
  match TemplateToString.expand data templateText none with
  | .ok out => (out, none)
  | .error e => ([], some e)

/-! ### `buildpacks/flutter.go` -/

/-- The constant `flutterDistMirrorTemplate`. -/
def flutterDistMirrorTemplate : GoString :=
  ("https://storage.googleapis.com/flutter_infra/releases/\x7b\x7b.Channel\x7d\x7d/" ++
    "\x7b\x7b.OS\x7d\x7d/flutter_\x7b\x7b.OS\x7d\x7d_\x7b\x7b.Version\x7d\x7d-" ++
    "\x7b\x7b.Channel\x7d\x7d.\x7b\x7b.Extension\x7d\x7d").toList

/-- The struct `FlutterBuildTool`. -/
structure FlutterBuildTool where
  version : GoString
  spec : BuildToolSpec
deriving DecidableEq, Repr

/-- The function `NewFlutterBuildTool`. -/
def NewFlutterBuildTool (spec : BuildToolSpec) : FlutterBuildTool :=
  { version := spec.Version, spec := spec }

/-- The method `FlutterBuildTool.Version`. -/
def FlutterBuildTool.Version (bt : FlutterBuildTool) : GoString :=
  bt.version

/-- The method `FlutterBuildTool.MajorVersion`. -/
def FlutterBuildTool.MajorVersion (bt : FlutterBuildTool) : GoString :=
  (strings.Split bt.version '.').getD 0 []

/-- The method `FlutterBuildTool.DownloadURL`. -/
def FlutterBuildTool.DownloadURL (R : Runtime) (bt : FlutterBuildTool) : GoString × GoError :=
  let opsys := R.OS
  let arch := R.Arch
  let extension := "tar.xz".toList
  let channel := "stable".toList
  let arch := if arch = "amd64".toList then "x64".toList else arch
  let (opsys, extension) :=
    if opsys = "darwin".toList then ("macos".toList, "zip".toList) else (opsys, extension)
  let version := bt.Version
  let parts := strings.Split version '_'
  let (version, channel) :=
    if parts.length > 2 then (parts.getD 0 [], channel)
    else if parts.length = 2 then (parts.getD 0 [], parts.getD 1 [])
    else (version, channel)
  TemplateToString flutterDistMirrorTemplate
    [("Channel".toList, channel), ("OS".toList, opsys), ("Arch".toList, arch),
     ("Version".toList, downloadURLVersion version), ("Extension".toList, extension)]

/-- The directory `flutterDir` of `FlutterBuildTool.Install`. -/
def FlutterBuildTool.flutterDir (R : Runtime) (bt : FlutterBuildTool) : GoString :=
  filepath.Join [filepath.Join [R.ToolsDir, "flutter".toList, "flutter-".toList ++ bt.Version],
    "flutter".toList]

/-- The method `FlutterBuildTool.Install`. -/
def FlutterBuildTool.Install (R : Runtime) (bt : FlutterBuildTool) (t : InstallTarget) :
    (GoString × GoError) × InstallTarget :=
  let installDir := filepath.Join [R.ToolsDir, "flutter".toList, "flutter-".toList ++ bt.Version]
  let flutterDir := filepath.Join [installDir, "flutter".toList]
  if t.PathExists flutterDir then ((flutterDir, none), t)
  else
    let (downloadURL, err) := bt.DownloadURL R
    match err with
    | some e => (([], some e), t)
    | none =>
      let ((localFile, err), t) := R.download downloadURL t
      match err with
      | some e => (([], some e), t)
      | none =>
        let (err, t) := R.unarchive localFile installDir t
        match err with
        | some e => (([], some e), t)
        | none => ((flutterDir, none), t)

/-! ### `buildpacks/rlang.go` -/

/-- The constant `rlangDistMirrorTemplate`. -/
def rlangDistMirrorTemplate : GoString :=
  "https://cloud.r-project.org/src/base".toList

/-- The struct `RLangBuildTool`. -/
structure RLangBuildTool where
  version : GoString
  spec : BuildToolSpec
deriving DecidableEq, Repr

/-- The function `NewRLangBuildTool`. -/
def NewRLangBuildTool (toolSpec : BuildToolSpec) : RLangBuildTool :=
  { version := toolSpec.Version, spec := toolSpec }

/-- The method `RLangBuildTool.Version`. -/
def RLangBuildTool.Version (bt : RLangBuildTool) : GoString :=
  bt.version

/-- The method `RLangBuildTool.MajorVersion`. -/
def RLangBuildTool.MajorVersion (bt : RLangBuildTool) : GoString :=
  (strings.Split bt.version '.').getD 0 []

/-- The method `RLangBuildTool.ArchiveFile`. -/
def RLangBuildTool.ArchiveFile (bt : RLangBuildTool) : GoString :=
  "R-".toList ++ bt.Version ++ ".tar.gz".toList

/-- The method `RLangBuildTool.DownloadURL`. -/
def RLangBuildTool.DownloadURL (bt : RLangBuildTool) : GoString × GoError :=
  (rlangDistMirrorTemplate ++ "/R-".toList ++ bt.MajorVersion ++ "/".toList ++ bt.ArchiveFile, none)

/-- The directory `rlangDir` of `RLangBuildTool.Install`. -/
def RLangBuildTool.rlangDir (R : Runtime) (bt : RLangBuildTool) : GoString :=
  filepath.Join [filepath.Join [R.ToolsDir, "R".toList], "R-".toList ++ bt.Version]

/-- The method `RLangBuildTool.Install`. The results of the three `t.Run`
calls are not looked at. -/
def RLangBuildTool.Install (R : Runtime) (bt : RLangBuildTool) (t : InstallTarget) :
    (GoString × GoError) × InstallTarget :=
  let installDir := filepath.Join [R.ToolsDir, "R".toList]
  let rlangDir := filepath.Join [installDir, "R-".toList ++ bt.Version]
  if t.PathExists rlangDir then ((rlangDir, none), t)
  else
    let (downloadURL, err) := bt.DownloadURL
    match err with
    | some e => (([], some e), t)
    | none =>
      let ((localFile, err), t) := R.download downloadURL t
      match err with
      | some e => (([], some e), t)
      | none =>
        let tmpDir := filepath.Join [installDir, "src".toList]
        let srcDir := filepath.Join [tmpDir, "R-".toList ++ bt.Version]
        let (err, t) :=
          if !t.PathExists srcDir then R.unarchive localFile tmpDir t else (none, t)
        match err with
        | some e => (([], some e), t)
        | none =>
          let t := t.MkdirAsNeeded rlangDir
          let p : Process :=
            { Command := "./configure --with-x=no --prefix=".toList ++ rlangDir,
              Directory := srcDir }
          let (_, t) := R.run p t
          let p := { p with Command := "make".toList }
          let (_, t) := R.run p t
          let p := { p with Command := "make install".toList }
          let (_, t) := R.run p t
          ((rlangDir, none), t)

/-! ### `buildpacks/maven.go` -/

/-- The variable `MAVEN_DIST_MIRROR`. -/
def MAVEN_DIST_MIRROR : GoString :=
  "https://archive.apache.org/dist/maven/".toList

/-- The struct `MavenBuildTool`. -/
structure MavenBuildTool where
  version : GoString
  spec : BuildToolSpec
deriving DecidableEq, Repr

/-- The function `NewMavenBuildTool`. -/
def NewMavenBuildTool (toolSpec : BuildToolSpec) : MavenBuildTool :=
  { version := toolSpec.Version, spec := toolSpec }

/-- The method `MavenBuildTool.Version`. -/
def MavenBuildTool.Version (bt : MavenBuildTool) : GoString :=
  bt.version

/-- The method `MavenBuildTool.MajorVersion`. -/
def MavenBuildTool.MajorVersion (bt : MavenBuildTool) : GoString :=
  (strings.Split bt.version '.').getD 0 []

/-- The method `MavenBuildTool.ArchiveFile`. -/
def MavenBuildTool.ArchiveFile (bt : MavenBuildTool) : GoString :=
  "apache-maven-".toList ++ bt.Version ++ "-bin.tar.gz".toList

/-- The method `MavenBuildTool.DownloadUrl`. -/
def MavenBuildTool.DownloadUrl (bt : MavenBuildTool) : GoString :=
  MAVEN_DIST_MIRROR ++ "/maven-".toList ++ bt.MajorVersion ++ "/".toList ++ bt.Version ++
    "/binaries/".toList ++ bt.ArchiveFile

/-- The method `MavenBuildTool.InstallDir`. -/
def MavenBuildTool.InstallDir (R : Runtime) (_bt : MavenBuildTool) : GoString :=
  filepath.Join [R.ToolsDir, "maven".toList]

/-- The method `MavenBuildTool.MavenDir`. -/
def MavenBuildTool.MavenDir (R : Runtime) (bt : MavenBuildTool) : GoString :=
  filepath.Join [bt.InstallDir R, "apache-maven-".toList ++ bt.Version]

/-- The method `MavenBuildTool.Install`. -/
def MavenBuildTool.Install (R : Runtime) (bt : MavenBuildTool) (t : InstallTarget) :
    GoError × InstallTarget :=
  let mavenDir := bt.MavenDir R
  if t.PathExists mavenDir then (none, t)
  else
    let downloadUrl := bt.DownloadUrl
    let ((localFile, err), t) := R.download downloadUrl t
    match err with
    | some e => (some e, t)
    | none =>
      let (err, t) := R.unarchive localFile (bt.InstallDir R) t
      match err with
      | some e => (some e, t)
      | none => (none, t)

/-! ### `buildpacks/build_gradle.go` -/

/-- The variable `GRADLE_DIST_MIRROR`. -/
def GRADLE_DIST_MIRROR : GoString :=
  "https://services.gradle.org/distributions/gradle-\x7b\x7b.Version\x7d\x7d-bin.zip".toList

/-- The struct `GradleBuildTool`. -/
structure GradleBuildTool where
  version : GoString
  spec : BuildToolSpec
deriving DecidableEq, Repr

/-- The function `NewGradleBuildTool`. -/
def NewGradleBuildTool (toolSpec : BuildToolSpec) : GradleBuildTool :=
  { version := toolSpec.Version, spec := toolSpec }

/-- The method `GradleBuildTool.Version`. -/
def GradleBuildTool.Version (bt : GradleBuildTool) : GoString :=
  bt.version

/-- The method `GradleBuildTool.MajorVersion`. -/
def GradleBuildTool.MajorVersion (bt : GradleBuildTool) : GoString :=
  (strings.Split bt.version '.').getD 0 []

/-- The method `GradleBuildTool.DownloadUrl`; the error of `TemplateToString`
is dropped. -/
def GradleBuildTool.DownloadUrl (R : Runtime) (bt : GradleBuildTool) : GoString :=
  (TemplateToString GRADLE_DIST_MIRROR
    [("OS".toList, R.OS), ("Arch".toList, R.Arch), ("Version".toList, bt.Version),
     ("Extension".toList, "zip".toList)]).1

/-- The method `GradleBuildTool.InstallDir`. -/
def GradleBuildTool.InstallDir (bt : GradleBuildTool) : GoString :=
  filepath.Join [bt.spec.SharedCacheDir, "gradle".toList]

/-- The method `GradleBuildTool.GradleDir`. -/
def GradleBuildTool.GradleDir (bt : GradleBuildTool) : GoString :=
  filepath.Join [bt.InstallDir, "gradle-".toList ++ bt.Version]

/-- The method `GradleBuildTool.Install`. -/
def GradleBuildTool.Install (R : Runtime) (bt : GradleBuildTool) (t : InstallTarget) :
    GoError × InstallTarget :=
  let gradleDir := bt.GradleDir
  let installDir := bt.InstallDir
  if t.PathExists gradleDir then (none, t)
  else
    let downloadUrl := bt.DownloadUrl R
    let ((localFile, err), t) := R.download downloadUrl t
    match err with
    | some e => (some e, t)
    | none =>
      let (err, t) := R.unarchive localFile installDir t
      match err with
      | some e => (some e, t)
      | none => (none, t)

/-- The method `GradleBuildTool.Setup`: the error it returns and the process
environment it leaves. The errors of `os.Setenv` are not looked at. -/
def GradleBuildTool.Setup (bt : GradleBuildTool) (env : Environ) : GoError × Environ :=
  let gradleDir := bt.GradleDir
  let gradleHome := filepath.Join [bt.spec.PackageCacheDir, "gradle-home".toList, bt.Version]
  let cmdPath := filepath.Join [gradleDir, "bin".toList]
  let currentPath := os.Getenv env "PATH".toList
  let newPath := cmdPath ++ ":".toList ++ currentPath
  let env := (os.Setenv env "PATH".toList newPath).1
  let env := (os.Setenv env "GRADLE_USER_HOME".toList gradleHome).1
  (none, env)

/-! ## `cli/build.go` -/

/-- The function `parseArgs` of `cli/build.go`: the package name, the target
and the error. -/
def parseArgs (lonelyArg : GoString) : GoString × GoString × GoError :=
  if strings.HasPrefix lonelyArg "@".toList then
    let parts := strings.SplitN (strings.TrimPrefix lonelyArg "@".toList) ':' 2
    if parts.length < 2 then
      ([], [], some ("unable to parse package/target definition: ".toList ++ lonelyArg))
    else (parts.getD 0 [], parts.getD 1 [], none)
  else ([], lonelyArg, none)

/-! ## Notions the properties are stated with -/

/-- A decimal numeral as `parseInt` accepts it: digits only, at least one, and
no zero in front of another digit. -/
def semver.canonical (t : GoString) : Prop :=
  t ≠ [] ∧ (∀ c ∈ t, semver.isDigit c = true) ∧ (t.head? = some '0' → t.length = 1)

/-- The test `strings.HasPrefix(cmdString, "cd ")` of `RunCommands`. -/
def isCd (cmdString : GoString) : Bool :=
  strings.HasPrefix cmdString "cd ".toList

/-- The working directory `RunCommands` holds after a command text: the joined
directory after a change-directory command, the directory with the root
override joined for any other command. -/
def RunCommands.dirAfter (config : BuildConfiguration) (targetDir cmdString : GoString) : GoString :=
  if isCd cmdString then filepath.Join [targetDir, (strings.SplitN cmdString ' ' 2).getD 1 []]
  else if config.Target.Root ≠ [] then filepath.Join [targetDir, config.Target.Root] else targetDir

/-- The executor call `RunCommands` makes for a command text that is not a
change of directory. -/
def RunCommands.invocation (config : BuildConfiguration) (targetDir cmdString : GoString) : Invocation :=
  if config.Sandboxed then .ExecInSandbox cmdString (RunCommands.dirAfter config targetDir cmdString)
  else .ExecToStdout cmdString (RunCommands.dirAfter config targetDir cmdString)

/-- The declared commands as the loops see them, the exec-prefix in front. -/
def commandTexts (config : BuildConfiguration) (cmds : List GoString) : List GoString :=
  cmds.map (withExecPrefix config)

/-- The command texts `RunCommands` does not take for a change of directory. -/
def realCommands (config : BuildConfiguration) (cmds : List GoString) : List GoString :=
  (commandTexts config cmds).filter (fun c => !isCd c)

/-- The executor fails on its k-th call (counted from 1) and on none before. -/
def Platform.failsFirstAt (P : Platform) (k : Nat) : Prop :=
  1 ≤ k ∧ (∀ j, j + 1 < k → P.outcome j = none) ∧ P.outcome (k - 1) ≠ none

/-- Every container lifecycle step of `RunCommandsInContainer` succeeds. -/
def Platform.containerStarts (P : Platform) (opts : BuildContainerOpts) : Prop :=
  (P.FindContainer opts).2 = none ∧
  (∀ found, (P.FindContainer opts).1 = some found → P.RemoveContainerById found.Id = none) ∧
  (P.NewContainer opts).2 = none ∧
  P.Start (P.NewContainer opts).1 = none

/-- A platform on which every call succeeds, no container exists beforehand
and the clock advances by one at each reading. -/
def Platform.quiet : Platform where
  clock := fun n => n
  outcome := fun _ => none
  FindContainer := fun _ => (none, none)
  RemoveContainerById := fun _ => none
  NewContainer := fun _ => ({ Id := "c1".toList }, none)
  Start := fun _ => none

/-- The platform `quiet` with the n-th executor call (counted from 0) failing. -/
def Platform.failingAt (n : Nat) : Platform :=
  { Platform.quiet with outcome := fun i => if i = n then some "exit status 1".toList else none }

/-- A platform that finds an existing container and cannot remove it. -/
def Platform.stuckContainer : Platform :=
  { Platform.quiet with
    FindContainer := fun _ => (some { Id := "old".toList }, none)
    RemoveContainerById := fun _ => some "container is in use".toList }

/-- A Linux machine on which every download, extraction and process succeeds;
an extraction leaves its destination directory. -/
def Runtime.sample : Runtime where
  ToolsDir := "/tools".toList
  OS := "linux".toList
  Arch := "amd64".toList
  DownloadFile := fun _ => ("/cache/archive".toList, none)
  Unarchive := fun _ dst => ([dst], none)
  Run := fun _ => ([], none)

/-- The machine `sample` on which `./configure` fails. -/
def Runtime.configureFails : Runtime :=
  { Runtime.sample with
    Run := fun p =>
      ([], if strings.HasPrefix p.Command "./configure".toList then some "exit status 1".toList
           else none) }

/-- The key of an assignment: the text before the first `=`. -/
def assignmentKey (envString : GoString) : GoString :=
  envString.takeWhile (fun c => decide (c ≠ '='))

/-- The value `Execute` reads from an assignment: the text after the first `=`,
up to the next `=`. -/
def assignmentValue (envString : GoString) : GoString :=
  ((envString.dropWhile (fun c => decide (c ≠ '='))).drop 1).takeWhile (fun c => decide (c ≠ '='))

/-- One assignment applied to the process environment: `os.Setenv` of its key
and of its value with the target directory in place of `{PKGDIR}`. -/
def applyAssignment (targetDir : GoString) (env : Environ) (envString : GoString) : Environ :=
  (os.Setenv env (assignmentKey envString)
    (strings.Replace (assignmentValue envString) "{PKGDIR}".toList targetDir)).1

/-- The download address of a Flutter release, in the words of the claim:
`https://storage.googleapis.com/flutter_infra/releases/<channel>/<os>/flutter_<os>_<nver>-<channel>.<ext>`. -/
def flutterURL (channel opsys nver ext : GoString) : GoString :=
  "https://storage.googleapis.com/flutter_infra/releases/".toList ++ channel ++ "/".toList ++
    opsys ++ "/flutter_".toList ++ opsys ++ "_".toList ++ nver ++ "-".toList ++ channel ++
    ".".toList ++ ext

/-- The name of the detected OS in a Flutter download address. -/
def flutterOS (o : GoString) : GoString :=
  if o = "darwin".toList then "macos".toList else o

/-- The archive extension of a Flutter release for the detected OS. -/
def flutterExtension (o : GoString) : GoString :=
  if o = "darwin".toList then "zip".toList else "tar.xz".toList

/-- The text `filepath.Clean` writes for the elements it kept (`out`, last one
first) of a rooted or unrooted path. -/
def filepath.render (rooted : Bool) (out : List GoString) : GoString :=
  if rooted then '/' :: strings.Join out.reverse "/".toList
  else if strings.Join out.reverse "/".toList = [] then ".".toList
  else strings.Join out.reverse "/".toList

/-- The elements `filepath.Clean` keeps (last one first): none is empty, is `.`
or holds a separator, and `..` stands only at the front of an unrooted path. -/
def filepath.cleanElems (rooted : Bool) : List GoString → Prop
  | [] => True
  | e :: rest =>
    e ≠ [] ∧ e ≠ ".".toList ∧ '/' ∉ e ∧
      (e = "..".toList → rooted = false ∧ ∀ x ∈ rest, x = "..".toList) ∧
      filepath.cleanElems rooted rest

/-- A plain version string: not empty, without a path separator, and not one of
the path elements `.` and `..`. -/
def plainVersion (v : GoString) : Prop :=
  v ≠ [] ∧ '/' ∉ v ∧ v ≠ ".".toList ∧ v ≠ "..".toList

/-- A tool spec: version 6.0, the shared cache under `/cache`, the package
cache under `/pkg`. -/
def BuildToolSpec.sample : BuildToolSpec where
  Version := "6.0".toList
  SharedCacheDir := "/cache".toList
  PackageCacheDir := "/pkg".toList

/-- An environment in which only `PATH` is set, to `/usr/bin`. -/
def Environ.sample : Environ :=
  fun k => if k = "PATH".toList then some "/usr/bin".toList else none

/-! ## The command loops, step by step -/

/-- The index expression `parts[1]` of `RunCommands` is in range: a command
text that starts with `cd ` splits into `cd` and the text after the blank. -/
theorem SplitN_of_isCd (cmdString : GoString) (h : isCd cmdString = true) :
    strings.SplitN cmdString ' ' 2 = ["cd".toList, cmdString.drop 3] := by
  obtain ⟨rest, rfl⟩ : ∃ rest, cmdString = 'c' :: 'd' :: ' ' :: rest := by
    have h' : "cd ".toList <+: cmdString := List.isPrefixOf_iff_prefix.mp h
    obtain ⟨rest, hrest⟩ := h'
    exact ⟨rest, hrest.symm⟩
  have hmin : min 2 (('c' :: 'd' :: ' ' :: rest).length + 1) - 1 = 1 := by
    simp only [List.length_cons]
    omega
  simp only [strings.SplitN, hmin]
  simp [strings.genSplit, strings.Cut]


theorem RunCommands_loop_cd (P : Platform) (config : BuildConfiguration) (c : GoString)
    (rest : List GoString) (d : GoString) (st : List CommandTimer) (w : World)
    (h : isCd (withExecPrefix config c) = true) :
    RunCommands.loop P config (c :: rest) d st w =
      RunCommands.loop P config rest (RunCommands.dirAfter config d (withExecPrefix config c))
        (st ++ [⟨withExecPrefix config c, P.clock w.reads, P.clock (w.reads + 1)⟩])
        { w with reads := w.reads + 2 } := by
  unfold isCd at h
  simp only [RunCommands.loop, Platform.Now, h, if_true, RunCommands.dirAfter, isCd]

theorem RunCommands_loop_fail (P : Platform) (config : BuildConfiguration) (c : GoString)
    (rest : List GoString) (d : GoString) (st : List CommandTimer) (w : World) (e : GoString)
    (h : isCd (withExecPrefix config c) = false)
    (he : P.outcome w.dispatched.length = some e) :
    RunCommands.loop P config (c :: rest) d st w =
      ((st, some e), { w with reads := w.reads + 1, dispatched := w.dispatched ++
          [RunCommands.invocation config d (withExecPrefix config c)] }) := by
  unfold isCd at h
  cases hs : config.Sandboxed <;>
  simp only [RunCommands.loop, Platform.Now, Platform.exec, h, RunCommands.dirAfter, isCd,
    RunCommands.invocation, hs, he, if_true, if_false, Bool.false_eq_true]

theorem RunCommands_loop_ok (P : Platform) (config : BuildConfiguration) (c : GoString)
    (rest : List GoString) (d : GoString) (st : List CommandTimer) (w : World)
    (h : isCd (withExecPrefix config c) = false)
    (he : P.outcome w.dispatched.length = none) :
    RunCommands.loop P config (c :: rest) d st w =
      RunCommands.loop P config rest (RunCommands.dirAfter config d (withExecPrefix config c))
        (st ++ [⟨withExecPrefix config c, P.clock w.reads, P.clock (w.reads + 1)⟩])
        { w with reads := w.reads + 2, dispatched := w.dispatched ++
          [RunCommands.invocation config d (withExecPrefix config c)] } := by
  unfold isCd at h
  cases hs : config.Sandboxed <;>
  simp only [RunCommands.loop, Platform.Now, Platform.exec, h, RunCommands.dirAfter, isCd,
    RunCommands.invocation, hs, he, if_true, if_false, Bool.false_eq_true]


theorem realCommands_cons_cd (config : BuildConfiguration) (c : GoString) (rest : List GoString)
    (h : isCd (withExecPrefix config c) = true) :
    realCommands config (c :: rest) = realCommands config rest := by
  simp [realCommands, commandTexts, h]

theorem realCommands_cons_real (config : BuildConfiguration) (c : GoString) (rest : List GoString)
    (h : isCd (withExecPrefix config c) = false) :
    realCommands config (c :: rest) = withExecPrefix config c :: realCommands config rest := by
  simp [realCommands, commandTexts, h]

theorem RunCommands_invocation_command (config : BuildConfiguration) (d c : GoString) :
    (RunCommands.invocation config d c).command = c := by
  unfold RunCommands.invocation
  split <;> rfl

theorem RunCommands_loop_fail_at (P : Platform) (config : BuildConfiguration) (e : GoString) :
    ∀ (cmds : List GoString) (d : GoString) (st : List CommandTimer) (w : World) (k : Nat),
      1 ≤ k → k ≤ (realCommands config cmds).length →
      (∀ j, j + 1 < k → P.outcome (w.dispatched.length + j) = none) →
      P.outcome (w.dispatched.length + (k - 1)) = some e →
      (RunCommands.loop P config cmds d st w).1.2 = some e ∧
      (RunCommands.loop P config cmds d st w).2.dispatched.map Invocation.command =
        w.dispatched.map Invocation.command ++ (realCommands config cmds).take k ∧
      ((RunCommands.loop P config cmds d st w).1.1.map CommandTimer.Command).filter
          (fun c => !isCd c) =
        (st.map CommandTimer.Command).filter (fun c => !isCd c) ++
          (realCommands config cmds).take (k - 1) ∧
      (∃ m, m < cmds.length ∧ (RunCommands.loop P config cmds d st w).1.1.map CommandTimer.Command =
        st.map CommandTimer.Command ++ (commandTexts config cmds).take m) ∧
      (RunCommands.loop P config cmds d st w).2.lifecycle = w.lifecycle := by
  intro cmds
  induction cmds with
  | nil =>
    intro d st w k hk hle
    simp [realCommands, commandTexts] at hle
    omega
  | cons c rest ih =>
    intro d st w k hk hle hok hfail
    cases hcd : isCd (withExecPrefix config c) with
    | true =>
      rw [RunCommands_loop_cd P config c rest d st w hcd]
      rw [realCommands_cons_cd config c rest hcd] at hle ⊢
      obtain ⟨h1, h2, h3, ⟨m, hm, h4⟩, h5⟩ := ih (RunCommands.dirAfter config d (withExecPrefix config c))
        (st ++ [⟨withExecPrefix config c, P.clock w.reads, P.clock (w.reads + 1)⟩])
        { w with reads := w.reads + 2 } k hk hle hok hfail
      refine ⟨h1, h2, ?_, ⟨m + 1, by simpa using hm, ?_⟩, h5⟩
      · rw [h3]; simp [hcd]
      · rw [h4]; simp [commandTexts]
    | false =>
      rw [realCommands_cons_real config c rest hcd] at hle ⊢
      by_cases hk1 : k = 1
      · subst hk1
        rw [RunCommands_loop_fail P config c rest d st w e hcd (by simpa using hfail)]
        refine ⟨rfl, ?_, ?_, ⟨0, by simp, ?_⟩, rfl⟩
        · simp [RunCommands_invocation_command]
        · simp
        · simp
      · have h0 : P.outcome w.dispatched.length = none := by
          have := hok 0 (by omega)
          simpa using this
        rw [RunCommands_loop_ok P config c rest d st w hcd h0]
        obtain ⟨h1, h2, h3, ⟨m, hm, h4⟩, h5⟩ := ih (RunCommands.dirAfter config d (withExecPrefix config c))
          (st ++ [⟨withExecPrefix config c, P.clock w.reads, P.clock (w.reads + 1)⟩])
          { w with reads := w.reads + 2, dispatched := w.dispatched ++
            [RunCommands.invocation config d (withExecPrefix config c)] } (k - 1) (by omega)
          (by simp at hle; omega)
          (by
            intro j hj
            have := hok (j + 1) (by omega)
            simpa [Nat.add_assoc, Nat.add_comm 1 j] using this)
          (by
            have : w.dispatched.length + 1 + (k - 1 - 1) = w.dispatched.length + (k - 1) := by omega
            simpa [this] using hfail)
        refine ⟨h1, ?_, ?_, ⟨m + 1, by simpa using hm, ?_⟩, h5⟩
        · rw [h2]
          have : k = (k - 1) + 1 := by omega
          rw [this]
          simp [RunCommands_invocation_command]
        · rw [h3]
          have : k - 1 = (k - 1 - 1) + 1 := by omega
          rw [this]
          simp [hcd]
        · rw [h4]; simp [commandTexts]


theorem RunCommands_loop_all_ok (P : Platform) (config : BuildConfiguration)
    (hok : ∀ n, P.outcome n = none) :
    ∀ (cmds : List GoString) (d : GoString) (st : List CommandTimer) (w : World),
      (RunCommands.loop P config cmds d st w).1.2 = none ∧
      (RunCommands.loop P config cmds d st w).1.1.map CommandTimer.Command =
        st.map CommandTimer.Command ++ commandTexts config cmds ∧
      (RunCommands.loop P config cmds d st w).2.dispatched.map Invocation.command =
        w.dispatched.map Invocation.command ++ realCommands config cmds ∧
      (∀ t ∈ (RunCommands.loop P config cmds d st w).1.1,
        t ∈ st ∨ ∃ n, t.StartTime = P.clock n ∧ t.EndTime = P.clock (n + 1)) := by
  intro cmds
  induction cmds with
  | nil =>
    intro d st w
    simp only [RunCommands.loop, commandTexts, realCommands, List.map_nil, List.filter_nil,
      List.append_nil, true_and]
    exact fun t ht => Or.inl ht
  | cons c rest ih =>
    intro d st w
    cases hcd : isCd (withExecPrefix config c) with
    | true =>
      rw [RunCommands_loop_cd P config c rest d st w hcd, realCommands_cons_cd config c rest hcd]
      obtain ⟨h1, h2, h3, h4⟩ := ih (RunCommands.dirAfter config d (withExecPrefix config c))
        (st ++ [⟨withExecPrefix config c, P.clock w.reads, P.clock (w.reads + 1)⟩])
        { w with reads := w.reads + 2 }
      refine ⟨h1, ?_, h3, ?_⟩
      · rw [h2]; simp [commandTexts]
      · intro t ht
        rcases h4 t ht with h | h
        · rcases List.mem_append.mp h with h | h
          · exact Or.inl h
          · right
            simp only [List.mem_singleton] at h
            exact ⟨w.reads, by rw [h], by rw [h]⟩
        · exact Or.inr h
    | false =>
      rw [RunCommands_loop_ok P config c rest d st w hcd (hok _),
        realCommands_cons_real config c rest hcd]
      obtain ⟨h1, h2, h3, h4⟩ := ih (RunCommands.dirAfter config d (withExecPrefix config c))
        (st ++ [⟨withExecPrefix config c, P.clock w.reads, P.clock (w.reads + 1)⟩])
        { w with reads := w.reads + 2, dispatched := w.dispatched ++
          [RunCommands.invocation config d (withExecPrefix config c)] }
      refine ⟨h1, ?_, ?_, ?_⟩
      · rw [h2]; simp [commandTexts]
      · rw [h3]; simp [RunCommands_invocation_command]
      · intro t ht
        rcases h4 t ht with h | h
        · rcases List.mem_append.mp h with h | h
          · exact Or.inl h
          · right
            simp only [List.mem_singleton] at h
            exact ⟨w.reads, by rw [h], by rw [h]⟩
        · exact Or.inr h

theorem RunCommandsInContainer_loop_fail (P : Platform) (config : BuildConfiguration)
    (bc : BuildContainer) (c : GoString) (rest : List GoString) (st : List CommandTimer)
    (w : World) (e : GoString) (he : P.outcome w.dispatched.length = some e) :
    RunCommandsInContainer.loop P config bc (c :: rest) st w =
      ((st, some "Aborting build, unable to run %!s(MISSING): %!v(MISSING)\n".toList),
        { w with reads := w.reads + 1, dispatched := w.dispatched ++
          [.ContainerExecToStdout bc.Id (withExecPrefix config c)] }) := by
  simp only [RunCommandsInContainer.loop, Platform.Now, Platform.exec, he]

theorem RunCommandsInContainer_loop_ok (P : Platform) (config : BuildConfiguration)
    (bc : BuildContainer) (c : GoString) (rest : List GoString) (st : List CommandTimer)
    (w : World) (he : P.outcome w.dispatched.length = none) :
    RunCommandsInContainer.loop P config bc (c :: rest) st w =
      RunCommandsInContainer.loop P config bc rest
        (st ++ [⟨withExecPrefix config c, P.clock w.reads, P.clock (w.reads + 1)⟩])
        { w with reads := w.reads + 2, dispatched := w.dispatched ++
          [.ContainerExecToStdout bc.Id (withExecPrefix config c)] } := by
  simp only [RunCommandsInContainer.loop, Platform.Now, Platform.exec, he]

theorem RunCommandsInContainer_loop_fail_at (P : Platform) (config : BuildConfiguration)
    (bc : BuildContainer) :
    ∀ (cmds : List GoString) (st : List CommandTimer) (w : World) (k : Nat),
      1 ≤ k → k ≤ cmds.length →
      (∀ j, j + 1 < k → P.outcome (w.dispatched.length + j) = none) →
      P.outcome (w.dispatched.length + (k - 1)) ≠ none →
      (RunCommandsInContainer.loop P config bc cmds st w).1.2 ≠ none ∧
      (RunCommandsInContainer.loop P config bc cmds st w).2.dispatched.map Invocation.command =
        w.dispatched.map Invocation.command ++ (commandTexts config cmds).take k ∧
      (RunCommandsInContainer.loop P config bc cmds st w).1.1.map CommandTimer.Command =
        st.map CommandTimer.Command ++ (commandTexts config cmds).take (k - 1) ∧
      (RunCommandsInContainer.loop P config bc cmds st w).2.lifecycle = w.lifecycle := by
  intro cmds
  induction cmds with
  | nil =>
    intro st w k hk hle
    simp at hle
    omega
  | cons c rest ih =>
    intro st w k hk hle hok hfail
    by_cases hk1 : k = 1
    · subst hk1
      obtain ⟨e, he⟩ := Option.ne_none_iff_exists'.mp hfail
      rw [RunCommandsInContainer_loop_fail P config bc c rest st w e (by simpa using he)]
      refine ⟨by simp, ?_, ?_, rfl⟩
      · simp [commandTexts, Invocation.command]
      · simp
    · have h0 : P.outcome w.dispatched.length = none := by
        have := hok 0 (by omega)
        simpa using this
      rw [RunCommandsInContainer_loop_ok P config bc c rest st w h0]
      obtain ⟨h1, h2, h3, h4⟩ := ih
        (st ++ [⟨withExecPrefix config c, P.clock w.reads, P.clock (w.reads + 1)⟩])
        { w with reads := w.reads + 2, dispatched := w.dispatched ++
          [.ContainerExecToStdout bc.Id (withExecPrefix config c)] } (k - 1) (by omega)
        (by simp at hle; omega)
        (by
          intro j hj
          have := hok (j + 1) (by omega)
          simpa [Nat.add_assoc, Nat.add_comm 1 j] using this)
        (by
          have : w.dispatched.length + 1 + (k - 1 - 1) = w.dispatched.length + (k - 1) := by omega
          simpa [this] using hfail)
      refine ⟨h1, ?_, ?_, h4⟩
      · rw [h2]
        have : k = (k - 1) + 1 := by omega
        rw [this]
        simp [commandTexts, Invocation.command]
      · rw [h3]
        have : k - 1 = (k - 1 - 1) + 1 := by omega
        rw [this]
        simp [commandTexts]


theorem RunCommandsInContainer_of_containerStarts (P : Platform) (config : BuildConfiguration)
    (opts : BuildContainerOpts) (w : World) (h : P.containerStarts opts) :
    ∃ w1 : World, w1.dispatched = w.dispatched ∧ w1.reads = w.reads ∧
      RunCommandsInContainer P config opts w =
        RunCommandsInContainer.loop P config (P.NewContainer opts).1 config.Target.Commands [] w1 := by
  obtain ⟨h1, h2, h3, h4⟩ := h
  unfold RunCommandsInContainer
  cases hf : (P.FindContainer opts).1 with
  | none =>
    refine ⟨(((w.call .FindContainer).call .NewContainer).call (.Start (P.NewContainer opts).1.Id)),
      rfl, rfl, ?_⟩
    simp only [h1, hf, h3, h4]
  | some found =>
    refine ⟨((((w.call .FindContainer).call (.RemoveContainerById found.Id)).call
      .NewContainer).call (.Start (P.NewContainer opts).1.Id)), rfl, rfl, ?_⟩
    simp only [h1, hf, h2 found hf, h3, h4]

/-! ## The dispatcher: timers and executor calls -/

/-- C1 (as stated, refuted): on a platform where every command succeeds, the
phase with the single command `cd sub` gets one timer, for that command, whereas
it has no command that is not a change of directory. -/
theorem RunCommands_times_cd_command :
    (∀ n, Platform.quiet.outcome n = none) ∧
    (RunCommands Platform.quiet
      { Target := { Commands := ["cd sub".toList] }, TargetDir := "/work/pkg".toList } {}).1.1 =
      [{ Command := "cd sub".toList, StartTime := 0, EndTime := 1 }] ∧
    (RunCommands Platform.quiet
      { Target := { Commands := ["cd sub".toList] }, TargetDir := "/work/pkg".toList } {}).1.1.length ≠
      (["cd sub".toList].filter (fun c => !strings.HasPrefix c "cd ".toList)).length := by
  refine ⟨fun _ => rfl, by decide, by decide⟩

/-- C1 (amended): when every command succeeds, `RunCommands` returns no error
and one timer per declared command, change-directory commands included, in
declared order, each timer carrying the command text with the exec-prefix in
front and, the clock being monotone, a start time that is at most its end
time. -/
theorem RunCommands_timers_when_all_succeed (P : Platform) (config : BuildConfiguration)
    (w : World) (hclock : Monotone P.clock) (hok : ∀ n, P.outcome n = none) :
    (RunCommands P config w).1.2 = none ∧
    (RunCommands P config w).1.1.map CommandTimer.Command =
      config.Target.Commands.map (withExecPrefix config) ∧
    (RunCommands P config w).1.1.length = config.Target.Commands.length ∧
    ∀ t ∈ (RunCommands P config w).1.1, t.StartTime ≤ t.EndTime := by
  obtain ⟨h1, h2, -, h4⟩ :=
    RunCommands_loop_all_ok P config hok config.Target.Commands config.TargetDir [] w
  have h2' : (RunCommands P config w).1.1.map CommandTimer.Command =
      config.Target.Commands.map (withExecPrefix config) := by
    simpa [RunCommands, commandTexts] using h2
  refine ⟨h1, h2', ?_, ?_⟩
  · have := congrArg List.length h2'
    simpa using this
  · intro t ht
    rcases h4 t ht with h | ⟨n, hs, he⟩
    · simp at h
    · rw [hs, he]
      exact hclock (Nat.le_succ n)

/-- Witness of C1 (amended): a phase that changes directory and then builds. -/
theorem RunCommands_timers_when_all_succeed_witness :
    Monotone Platform.quiet.clock ∧ (∀ n, Platform.quiet.outcome n = none) ∧
    (RunCommands Platform.quiet
      { Target := { Commands := ["cd sub".toList, "make".toList] } } {}).1.1.length = 2 :=
  ⟨fun _ _ h => h, fun _ => rfl,
    (RunCommands_timers_when_all_succeed Platform.quiet
      { Target := { Commands := ["cd sub".toList, "make".toList] } } {}
      (fun _ _ h => h) (fun _ => rfl)).2.2.1⟩


theorem failingAt_failsFirstAt (n : Nat) : (Platform.failingAt n).failsFirstAt (n + 1) := by
  refine ⟨by omega, ?_, ?_⟩
  · intro j hj
    have : j ≠ n := by omega
    simp [Platform.failingAt, this]
  · simp [Platform.failingAt]

theorem failingAt_containerStarts (n : Nat) (opts : BuildContainerOpts) :
    (Platform.failingAt n).containerStarts opts := by
  refine ⟨rfl, ?_, rfl, rfl⟩
  intro found h
  rfl

theorem RunCommands_loop_fail_after (P : Platform) (config : BuildConfiguration)
    (c : GoString) (post : List GoString) (e : GoString)
    (hc : isCd (withExecPrefix config c) = false) :
    ∀ (pre : List GoString) (d : GoString) (st : List CommandTimer) (w : World),
      (∀ j, j < (realCommands config pre).length → P.outcome (w.dispatched.length + j) = none) →
      P.outcome (w.dispatched.length + (realCommands config pre).length) = some e →
      (RunCommands.loop P config (pre ++ c :: post) d st w).1.2 = some e ∧
      (RunCommands.loop P config (pre ++ c :: post) d st w).1.1.map CommandTimer.Command =
        st.map CommandTimer.Command ++ commandTexts config pre := by
  intro pre
  induction pre with
  | nil =>
    intro d st w _ hfail
    rw [List.nil_append, RunCommands_loop_fail P config c post d st w e hc
      (by simpa [realCommands, commandTexts] using hfail)]
    simp [commandTexts]
  | cons b rest ih =>
    intro d st w hok hfail
    rw [List.cons_append]
    cases hcd : isCd (withExecPrefix config b) with
    | true =>
      rw [RunCommands_loop_cd P config b (rest ++ c :: post) d st w hcd]
      rw [realCommands_cons_cd config b rest hcd] at hok hfail
      obtain ⟨h1, h2⟩ := ih (RunCommands.dirAfter config d (withExecPrefix config b))
        (st ++ [⟨withExecPrefix config b, P.clock w.reads, P.clock (w.reads + 1)⟩])
        { w with reads := w.reads + 2 } hok hfail
      refine ⟨h1, ?_⟩
      rw [h2]
      simp [commandTexts]
    | false =>
      rw [realCommands_cons_real config b rest hcd] at hok hfail
      have h0 : P.outcome w.dispatched.length = none := by
        have := hok 0 (by simp)
        simpa using this
      rw [RunCommands_loop_ok P config b (rest ++ c :: post) d st w hcd h0]
      obtain ⟨h1, h2⟩ := ih (RunCommands.dirAfter config d (withExecPrefix config b))
        (st ++ [⟨withExecPrefix config b, P.clock w.reads, P.clock (w.reads + 1)⟩])
        { w with reads := w.reads + 2, dispatched := w.dispatched ++
          [RunCommands.invocation config d (withExecPrefix config b)] }
        (by
          intro j hj
          have := hok (j + 1) (by simp only [List.length_cons]; omega)
          simpa [Nat.add_assoc, Nat.add_comm 1 j] using this)
        (by
          simp only [List.length_cons] at hfail
          simpa [Nat.add_assoc, Nat.add_comm 1] using hfail)
      refine ⟨h1, ?_⟩
      rw [h2]
      simp [commandTexts]

theorem exists_kth_real_command (config : BuildConfiguration) :
    ∀ (cmds : List GoString) (k : Nat), 1 ≤ k → k ≤ (realCommands config cmds).length →
      ∃ pre c post, cmds = pre ++ c :: post ∧ (realCommands config pre).length = k - 1 ∧
        isCd (withExecPrefix config c) = false := by
  intro cmds
  induction cmds with
  | nil =>
    intro k hk hle
    simp [realCommands, commandTexts] at hle
    omega
  | cons b rest ih =>
    intro k hk hle
    cases hcd : isCd (withExecPrefix config b) with
    | true =>
      rw [realCommands_cons_cd config b rest hcd] at hle
      obtain ⟨pre, c, post, h1, h2, h3⟩ := ih k hk hle
      refine ⟨b :: pre, c, post, by rw [h1]; rfl, ?_, h3⟩
      rw [realCommands_cons_cd config b pre hcd, h2]
    | false =>
      rw [realCommands_cons_real config b rest hcd] at hle
      by_cases hk1 : k = 1
      · subst hk1
        exact ⟨[], b, rest, rfl, by simp [realCommands, commandTexts], hcd⟩
      · obtain ⟨pre, c, post, h1, h2, h3⟩ := ih (k - 1) (by omega)
          (by simp only [List.length_cons] at hle; omega)
        refine ⟨b :: pre, c, post, by rw [h1]; rfl, ?_, h3⟩
        rw [realCommands_cons_real config b pre hcd, List.length_cons, h2]
        omega

/-- C2 (as stated, refuted): when the only command of a phase fails (k = N = 1)
both dispatchers return an error and an empty timer list, not a list of one
entry. -/
theorem dispatchers_drop_failing_timer :
    (Platform.failingAt 0).failsFirstAt 1 ∧
    (RunCommands (Platform.failingAt 0) { Target := { Commands := ["make".toList] } } {}).1 =
      ([], some "exit status 1".toList) ∧
    (RunCommands (Platform.failingAt 0)
      { Target := { Commands := ["make".toList] } } {}).1.1.length ≠ 1 ∧
    (RunCommandsInContainer (Platform.failingAt 0)
      { Target := { Commands := ["make".toList] } } {} {}).1.1.length ≠ 1 := by
  refine ⟨failingAt_failsFirstAt 0, by decide, by decide, by decide⟩

/-- C2 (amended): when the executor fails on its k-th call and on none before,
each dispatcher returns a non-nil error and the timers of the commands that
came before the failing one, in declared order, and no timer for the failing
command. For `RunCommands` the failing command is the k-th real command of
the phase, and the timer list holds exactly one entry for every declared
command before it: the k-1 real commands and each change-directory command
passed on the way (k-1 timers in all when the phase has no change-directory
command); `RunCommandsInContainer`, once the container has started, returns
exactly k-1 timers, those of the first k-1 commands. -/
theorem dispatchers_timers_on_failure (P : Platform) (config : BuildConfiguration)
    (opts : BuildContainerOpts) (k : Nat) (hfail : P.failsFirstAt k) :
    (k ≤ (realCommands config config.Target.Commands).length →
      (RunCommands P config {}).1.2 ≠ none ∧
      ((RunCommands P config {}).1.1.map CommandTimer.Command).filter (fun c => !isCd c) =
        (realCommands config config.Target.Commands).take (k - 1) ∧
      ((∀ c ∈ config.Target.Commands, isCd (withExecPrefix config c) = false) →
        (RunCommands P config {}).1.1.map CommandTimer.Command =
          (config.Target.Commands.map (withExecPrefix config)).take (k - 1) ∧
        (RunCommands P config {}).1.1.length = k - 1) ∧
      (∃ pre c post, config.Target.Commands = pre ++ c :: post ∧
        (realCommands config pre).length = k - 1 ∧ isCd (withExecPrefix config c) = false) ∧
      (∀ pre c post, config.Target.Commands = pre ++ c :: post →
        (realCommands config pre).length = k - 1 → isCd (withExecPrefix config c) = false →
        (RunCommands P config {}).1.1.map CommandTimer.Command =
          pre.map (withExecPrefix config) ∧
        (RunCommands P config {}).1.1.length = pre.length)) ∧
    (P.containerStarts opts → k ≤ config.Target.Commands.length →
      (RunCommandsInContainer P config opts {}).1.2 ≠ none ∧
      (RunCommandsInContainer P config opts {}).1.1.map CommandTimer.Command =
        (config.Target.Commands.map (withExecPrefix config)).take (k - 1) ∧
      (RunCommandsInContainer P config opts {}).1.1.length = k - 1) := by
  obtain ⟨hk, hok, hbad⟩ := hfail
  constructor
  · intro hle
    obtain ⟨e, he⟩ := Option.ne_none_iff_exists'.mp hbad
    obtain ⟨h1, -, h3, ⟨m, -, h4⟩, -⟩ := RunCommands_loop_fail_at P config e
      config.Target.Commands config.TargetDir [] {} k hk hle
      (by intro j hj; simpa using hok j hj) (by simpa using he)
    have h3' : ((RunCommands P config {}).1.1.map CommandTimer.Command).filter
        (fun c => !isCd c) = (realCommands config config.Target.Commands).take (k - 1) := by
      simpa [RunCommands] using h3
    refine ⟨by rw [RunCommands, h1]; simp, h3', ?_,
      exists_kth_real_command config config.Target.Commands k hk hle, ?_⟩
    swap
    · intro pre c post hcmds hpre hc
      obtain ⟨-, h2⟩ := RunCommands_loop_fail_after P config c post e hc pre config.TargetDir []
        {} (by
          intro j hj
          have := hok j (by omega)
          simpa using this)
        (by rw [hpre]; simpa using he)
      have hmap : (RunCommands P config {}).1.1.map CommandTimer.Command =
          pre.map (withExecPrefix config) := by
        rw [RunCommands, hcmds]
        simpa [commandTexts] using h2
      refine ⟨hmap, ?_⟩
      have := congrArg List.length hmap
      simpa using this
    intro hnocd
    have hreal : realCommands config config.Target.Commands =
        config.Target.Commands.map (withExecPrefix config) := by
      unfold realCommands commandTexts
      rw [List.filter_eq_self]
      intro c hc
      obtain ⟨c0, hc0, rfl⟩ := List.mem_map.mp hc
      simp [hnocd c0 hc0]
    have h4' : (RunCommands P config {}).1.1.map CommandTimer.Command =
        (config.Target.Commands.map (withExecPrefix config)).take m := by
      simpa [RunCommands, commandTexts] using h4
    have hfilter : ((RunCommands P config {}).1.1.map CommandTimer.Command).filter
        (fun c => !isCd c) = (RunCommands P config {}).1.1.map CommandTimer.Command := by
      rw [List.filter_eq_self]
      intro c hc
      rw [h4'] at hc
      obtain ⟨c0, hc0, rfl⟩ := List.mem_map.mp (List.mem_of_mem_take hc)
      simp [hnocd c0 hc0]
    have hmap : (RunCommands P config {}).1.1.map CommandTimer.Command =
        (config.Target.Commands.map (withExecPrefix config)).take (k - 1) := by
      rw [← hfilter, h3', hreal]
    refine ⟨hmap, ?_⟩
    have := congrArg List.length hmap
    rw [hreal] at hle
    simp at this hle
    omega
  · intro hstart hle
    obtain ⟨w1, hw1, -, hrun⟩ := RunCommandsInContainer_of_containerStarts P config opts {} hstart
    have hd : w1.dispatched.length = 0 := by rw [hw1]; rfl
    obtain ⟨h1, -, h3, -⟩ := RunCommandsInContainer_loop_fail_at P config (P.NewContainer opts).1
      config.Target.Commands [] w1 k hk hle
      (by intro j hj; rw [hd]; simpa using hok j hj) (by rw [hd]; simpa using hbad)
    rw [← hrun] at h1 h3
    have hmap : (RunCommandsInContainer P config opts {}).1.1.map CommandTimer.Command =
        (config.Target.Commands.map (withExecPrefix config)).take (k - 1) := by
      simpa [commandTexts] using h3
    refine ⟨h1, hmap, ?_⟩
    have := congrArg List.length hmap
    simp at this
    omega

/-- Witness of C2 (amended): the second real command fails after two changes
of directory; the timers are those of the three commands before it. -/
theorem dispatchers_timers_on_failure_witness :
    (Platform.failingAt 1).failsFirstAt 2 ∧
    (RunCommands (Platform.failingAt 1)
      { Target := { Commands := ["cd x".toList, "a".toList, "cd y".toList, "b".toList,
          "c".toList] } } {}).1.1.map CommandTimer.Command =
      ["cd x".toList, "a".toList, "cd y".toList] ∧
    (RunCommandsInContainer (Platform.failingAt 1)
      { Target := { Commands := ["a".toList, "b".toList, "c".toList] } } {} {}).1.1.length = 1 :=
  ⟨failingAt_failsFirstAt 1,
    ((((dispatchers_timers_on_failure (Platform.failingAt 1)
      { Target := { Commands := ["cd x".toList, "a".toList, "cd y".toList, "b".toList,
          "c".toList] } } {} 2
      (failingAt_failsFirstAt 1)).1 (by decide)).2.2.2.2
        ["cd x".toList, "a".toList, "cd y".toList] "b".toList ["c".toList] rfl (by decide)
        (by decide))).1,
    ((dispatchers_timers_on_failure (Platform.failingAt 1)
      { Target := { Commands := ["a".toList, "b".toList, "c".toList] } } {} 2
      (failingAt_failsFirstAt 1)).2 (failingAt_containerStarts 1 {})
      (by decide)).2.2⟩

/-- C3: when the executor fails on its k-th call and on none before, the
executor calls of the run are exactly the first k commands that are
dispatched, in declared order and once each, and nothing after the failing
command is dispatched: for `RunCommands` the first k real commands (with the
exec-prefix, change-directory commands not being dispatched), for
`RunCommandsInContainer` the first k commands (with the exec-prefix), all in
the container that was started. -/
theorem dispatch_stops_at_first_failure (P : Platform) (config : BuildConfiguration)
    (opts : BuildContainerOpts) (k : Nat) (hfail : P.failsFirstAt k) :
    (k ≤ (realCommands config config.Target.Commands).length →
      (RunCommands P config {}).2.dispatched.map Invocation.command =
        (realCommands config config.Target.Commands).take k ∧
      (RunCommands P config {}).2.dispatched.length = k) ∧
    (P.containerStarts opts → k ≤ config.Target.Commands.length →
      (RunCommandsInContainer P config opts {}).2.dispatched.map Invocation.command =
        (config.Target.Commands.map (withExecPrefix config)).take k ∧
      (RunCommandsInContainer P config opts {}).2.dispatched.length = k) := by
  obtain ⟨hk, hok, hbad⟩ := hfail
  constructor
  · intro hle
    obtain ⟨e, he⟩ := Option.ne_none_iff_exists'.mp hbad
    obtain ⟨-, h2, -⟩ := RunCommands_loop_fail_at P config e
      config.Target.Commands config.TargetDir [] {} k hk hle
      (by intro j hj; simpa using hok j hj) (by simpa using he)
    have h2' : (RunCommands P config {}).2.dispatched.map Invocation.command =
        (realCommands config config.Target.Commands).take k := by
      simpa [RunCommands] using h2
    refine ⟨h2', ?_⟩
    have := congrArg List.length h2'
    simp at this
    omega
  · intro hstart hle
    obtain ⟨w1, hw1, -, hrun⟩ := RunCommandsInContainer_of_containerStarts P config opts {} hstart
    have hd : w1.dispatched.length = 0 := by rw [hw1]; rfl
    obtain ⟨-, h2, -⟩ := RunCommandsInContainer_loop_fail_at P config (P.NewContainer opts).1
      config.Target.Commands [] w1 k hk hle
      (by intro j hj; rw [hd]; simpa using hok j hj) (by rw [hd]; simpa using hbad)
    rw [← hrun, hw1] at h2
    have h2' : (RunCommandsInContainer P config opts {}).2.dispatched.map Invocation.command =
        (config.Target.Commands.map (withExecPrefix config)).take k := by
      simpa [commandTexts] using h2
    refine ⟨h2', ?_⟩
    have := congrArg List.length h2'
    simp at this
    omega

/-- Witness of C3: the second of three commands fails, the third is not run. -/
theorem dispatch_stops_at_first_failure_witness :
    (Platform.failingAt 1).failsFirstAt 2 ∧
    (RunCommands (Platform.failingAt 1)
      { Target := { Commands := ["a".toList, "b".toList, "c".toList] } } {}).2.dispatched.map
        Invocation.command = ["a".toList, "b".toList] ∧
    (RunCommandsInContainer (Platform.failingAt 1)
      { Target := { Commands := ["a".toList, "b".toList, "c".toList] } } {} {}).2.dispatched.map
        Invocation.command = ["a".toList, "b".toList] :=
  ⟨failingAt_failsFirstAt 1,
    ((dispatch_stops_at_first_failure (Platform.failingAt 1)
      { Target := { Commands := ["a".toList, "b".toList, "c".toList] } } {} 2
      (failingAt_failsFirstAt 1)).1 (by decide)).1,
    ((dispatch_stops_at_first_failure (Platform.failingAt 1)
      { Target := { Commands := ["a".toList, "b".toList, "c".toList] } } {} 2
      (failingAt_failsFirstAt 1)).2 (failingAt_containerStarts 1 {})
      (by decide)).1⟩


/-! ## The container lifecycle -/

/-- C7: when a container lifecycle step fails (finding an existing container,
removing the one found, creating the new one, or starting it),
`RunCommandsInContainer` returns a non-nil error and an empty timer list and
dispatches no command; and whenever an existing container is found, the
lifecycle calls of the run are the search, then the removal of the container
found, then at most the creation and the start, the creation being reached
only after a successful removal. -/
theorem RunCommandsInContainer_lifecycle (P : Platform) (config : BuildConfiguration)
    (opts : BuildContainerOpts) (w : World) :
    (((P.FindContainer opts).2 ≠ none ∨
      (∃ found, (P.FindContainer opts).1 = some found ∧ P.RemoveContainerById found.Id ≠ none) ∨
      (P.NewContainer opts).2 ≠ none ∨
      P.Start (P.NewContainer opts).1 ≠ none) →
      (RunCommandsInContainer P config opts w).1.2 ≠ none ∧
      (RunCommandsInContainer P config opts w).1.1 = [] ∧
      (RunCommandsInContainer P config opts w).2.dispatched = w.dispatched) ∧
    (∀ found, P.FindContainer opts = (some found, none) →
      ∃ rest, (RunCommandsInContainer P config opts w).2.lifecycle =
          w.lifecycle ++ [.FindContainer, .RemoveContainerById found.Id] ++ rest ∧
        rest <+: [.NewContainer, .Start (P.NewContainer opts).1.Id] ∧
        (LifecycleCall.NewContainer ∈ rest → P.RemoveContainerById found.Id = none)) := by
  have hloop : ∀ (bc : BuildContainer) (cmds : List GoString) (st : List CommandTimer) (w1 : World),
      (RunCommandsInContainer.loop P config bc cmds st w1).2.lifecycle = w1.lifecycle := by
    intro bc cmds
    induction cmds with
    | nil => intro st w1; rfl
    | cons c rest ih =>
      intro st w1
      cases ho : P.outcome w1.dispatched.length with
      | none => rw [RunCommandsInContainer_loop_ok P config bc c rest st w1 ho, ih]
      | some e => rw [RunCommandsInContainer_loop_fail P config bc c rest st w1 e ho]
  constructor
  · intro h
    unfold RunCommandsInContainer
    rcases hfind : P.FindContainer opts with ⟨ex, ferr⟩
    rcases hnew : P.NewContainer opts with ⟨bc, nerr⟩
    rw [hfind, hnew] at h
    cases ferr with
    | some e => simp [World.call]
    | none =>
      cases ex with
      | some found =>
        cases hrem : P.RemoveContainerById found.Id with
        | some e => simp [World.call, hrem]
        | none =>
          cases nerr with
          | some e => simp [World.call, hrem]
          | none =>
            cases hstart : P.Start bc with
            | some e => simp [World.call, hrem, hstart]
            | none => simp [hrem, hstart] at h
      | none =>
        cases nerr with
        | some e => simp [World.call]
        | none =>
          cases hstart : P.Start bc with
          | some e => simp [World.call, hstart]
          | none => simp [hstart] at h
  · intro found hfind
    unfold RunCommandsInContainer
    rcases hnew : P.NewContainer opts with ⟨bc, nerr⟩
    rw [hfind]
    cases hrem : P.RemoveContainerById found.Id with
    | some e => exact ⟨[], by simp [World.call, hrem], by simp, by simp⟩
    | none =>
      cases nerr with
      | some e => exact ⟨[.NewContainer], by simp [World.call, hrem], by simp, by simp⟩
      | none =>
        cases hstart : P.Start bc with
        | some e =>
          exact ⟨[.NewContainer, .Start bc.Id], by simp [World.call, hrem, hstart], by simp,
            by simp⟩
        | none =>
          exact ⟨[.NewContainer, .Start bc.Id], by simp [World.call, hrem, hstart, hloop],
            by simp, by simp⟩

/-- Witness of C7: an existing container that cannot be removed. -/
theorem RunCommandsInContainer_lifecycle_witness :
    (RunCommandsInContainer Platform.stuckContainer
      { Target := { Commands := ["make".toList] } } {} {}).1.2 ≠ none ∧
    (RunCommandsInContainer Platform.stuckContainer
      { Target := { Commands := ["make".toList] } } {} {}).1.1 = [] ∧
    (RunCommandsInContainer Platform.stuckContainer
      { Target := { Commands := ["make".toList] } } {} {}).2.dispatched = [] :=
  (RunCommandsInContainer_lifecycle Platform.stuckContainer
    { Target := { Commands := ["make".toList] } } {} {}).1
    (Or.inr (Or.inl ⟨{ Id := "old".toList }, rfl, by decide⟩))


/-! ## The build command and the change of directory -/

/-- C5 (code defect): the assignment `OPTS=-Dkey=val`, whose value holds an
`=`, sets `OPTS` to `-Dkey`, the text between the first and the second `=`,
and not to the whole text after the first `=`; the assignment
`FOO={PKGDIR}/bin` of the specification is applied as stated. -/
theorem Execute_environment_cuts_value_at_second_equals :
    (buildCmd.Execute.environment "/work/pkg".toList ["OPTS=-Dkey=val".toList]
      (fun _ => none)).map (fun env => env "OPTS".toList) = some (some "-Dkey".toList) ∧
    (buildCmd.Execute.environment "/work/pkg".toList ["FOO={PKGDIR}/bin".toList]
      (fun _ => none)).map (fun env => env "FOO".toList) = some (some "/work/pkg/bin".toList) := by
  constructor <;> decide

/-- C6 (code defect): a manifest without the global sandbox flag whose build
phase sets its own sandbox flag is run by the host executor, not by the
sandbox executor: `sandboxed` is computed from the zero-valued `target`,
before the phase is selected. A manifest with the global flag, a phase with a
container image and the no-container override are dispatched as stated. -/
theorem Execute_ignores_phase_sandbox_flag :
    (buildCmd.Execute Platform.quiet {} []
      { targetDir := "/work/pkg".toList,
        manifest := .ok { Sandbox := false,
                          Build := { Commands := ["make".toList], Sandbox := true } } }
      {}).map (fun o => o.world.dispatched) =
      some [.ExecToStdout "make".toList "/work/pkg".toList] ∧
    (buildCmd.Execute Platform.quiet {} []
      { targetDir := "/work/pkg".toList,
        manifest := .ok { Sandbox := true, Build := { Commands := ["make".toList] } } }
      {}).map (fun o => o.world.dispatched) =
      some [.ExecInSandbox "make".toList "/work/pkg".toList] ∧
    (buildCmd.Execute Platform.quiet {} []
      { targetDir := "/work/pkg".toList,
        manifest := .ok { Sandbox := true,
                          Build := { Commands := ["make".toList],
                                     Container := { Image := "golang".toList } } } }
      {}).map (fun o => o.world.dispatched) =
      some [.ContainerExecToStdout "c1".toList "make".toList] ∧
    (buildCmd.Execute Platform.quiet { NoContainer := true } []
      { targetDir := "/work/pkg".toList,
        manifest := .ok { Build := { Commands := ["make".toList],
                                     Container := { Image := "golang".toList } } } }
      {}).map (fun o => o.world.dispatched) =
      some [.ExecToStdout "make".toList "/work/pkg".toList] := by
  refine ⟨by decide, by decide, by decide, by decide⟩

/-- C10 (code defect): under the exec-prefix `time` the declared command
`cd sub` is dispatched to the executor as `time cd sub`, and the command after
it runs in the unchanged directory; without the prefix `cd sub` is not
dispatched and the next command runs in the joined directory. -/
theorem RunCommands_dispatches_prefixed_cd :
    (RunCommands Platform.quiet
      { Target := { Commands := ["cd sub".toList, "make".toList] },
        TargetDir := "/work/pkg".toList, ExecPrefix := "time".toList } {}).2.dispatched =
      [.ExecToStdout "time cd sub".toList "/work/pkg".toList,
       .ExecToStdout "time make".toList "/work/pkg".toList] ∧
    (RunCommands Platform.quiet
      { Target := { Commands := ["cd sub".toList, "make".toList] },
        TargetDir := "/work/pkg".toList } {}).2.dispatched =
      [.ExecToStdout "make".toList "/work/pkg/sub".toList] := by
  constructor <;> decide


/-! ## The Flutter version boundary: decimal numerals and their order -/

theorem isDigit_iff (c : Char) : semver.isDigit c = true ↔ 48 ≤ c.toNat ∧ c.toNat ≤ 57 := by
  unfold semver.isDigit
  rw [Bool.and_eq_true, decide_eq_true_iff, decide_eq_true_iff]
  exact Iff.rfl

theorem char_eq_of_toNat_eq (a b : Char) (h : a.toNat = b.toNat) : a = b := by
  apply Char.ext
  apply UInt32.ext
  exact h

theorem numeral_foldl (t : GoString) : ∀ a : Nat,
    t.foldl (fun n c => 10 * n + (c.toNat - '0'.toNat)) a =
      a * 10 ^ t.length + t.foldl (fun n c => 10 * n + (c.toNat - '0'.toNat)) 0 := by
  induction t with
  | nil => intro a; simp
  | cons c t ih =>
    intro a
    simp only [List.foldl_cons, List.length_cons]
    rw [ih (10 * a + (c.toNat - '0'.toNat)), ih (10 * 0 + (c.toNat - '0'.toNat))]
    ring

theorem numeral_cons (c : Char) (t : GoString) :
    semver.numeral (c :: t) = (c.toNat - 48) * 10 ^ t.length + semver.numeral t := by
  unfold semver.numeral
  rw [List.foldl_cons, numeral_foldl]
  have h0 : '0'.toNat = 48 := rfl
  rw [h0, Nat.mul_zero, Nat.zero_add]

theorem numeral_lt_pow (t : GoString) (h : ∀ c ∈ t, semver.isDigit c = true) :
    semver.numeral t < 10 ^ t.length := by
  induction t with
  | nil => simp [semver.numeral]
  | cons c t ih =>
    rw [numeral_cons, List.length_cons, pow_succ]
    have hc := (isDigit_iff c).mp (h c (List.mem_cons_self c t))
    have ht := ih (fun d hd => h d (List.mem_cons_of_mem c hd))
    have : (c.toNat - 48) * 10 ^ t.length ≤ 9 * 10 ^ t.length :=
      Nat.mul_le_mul_right _ (by omega)
    omega

theorem less_iff_numeral : ∀ (x y : GoString),
    (∀ c ∈ x, semver.isDigit c = true) → (∀ c ∈ y, semver.isDigit c = true) →
    x.length = y.length →
    (GoString.less x y = true ↔ semver.numeral x < semver.numeral y) ∧
    (x = y ↔ semver.numeral x = semver.numeral y) := by
  intro x
  induction x with
  | nil =>
    intro y _ _ hlen
    cases y with
    | nil => simp [GoString.less]
    | cons b y => simp at hlen
  | cons a x ih =>
    intro y hx hy hlen
    cases y with
    | nil => simp at hlen
    | cons b y =>
      have hlen' : x.length = y.length := by simpa using hlen
      have ha := (isDigit_iff a).mp (hx a (List.mem_cons_self a x))
      have hb := (isDigit_iff b).mp (hy b (List.mem_cons_self b y))
      have hxd : ∀ c ∈ x, semver.isDigit c = true := fun d hd => hx d (List.mem_cons_of_mem a hd)
      have hyd : ∀ c ∈ y, semver.isDigit c = true := fun d hd => hy d (List.mem_cons_of_mem b hd)
      have hxl := numeral_lt_pow x hxd
      have hyl := numeral_lt_pow y hyd
      rw [hlen'] at hxl
      obtain ⟨ih1, ih2⟩ := ih y hxd hyd hlen'
      rw [numeral_cons, numeral_cons, hlen']
      have hlt : a < b ↔ a.toNat < b.toNat := Iff.rfl
      have hgt : b < a ↔ b.toNat < a.toNat := Iff.rfl
      rcases Nat.lt_trichotomy a.toNat b.toNat with h | h | h
      · have hm : (a.toNat - 48 + 1) * 10 ^ y.length ≤ (b.toNat - 48) * 10 ^ y.length :=
          Nat.mul_le_mul_right _ (by omega)
        rw [Nat.add_mul, Nat.one_mul] at hm
        have hne : a ≠ b := fun e => by rw [e] at h; exact Nat.lt_irrefl _ h
        constructor
        · simp only [GoString.less, hlt.mpr h, if_true, true_iff]
          omega
        · constructor
          · intro e; exact absurd (List.cons.inj e).1 hne
          · intro e; omega
      · have hab : a = b := char_eq_of_toNat_eq a b h
        subst hab
        constructor
        · simp only [GoString.less, Char.lt_irrefl, if_false, Bool.false_eq_true]
          rw [ih1]
          omega
        · constructor
          · intro e
            have := ih2.mp (List.cons.inj e).2
            omega
          · intro e
            have : semver.numeral x = semver.numeral y := by omega
            rw [ih2.mpr this]
      · have hm : (b.toNat - 48 + 1) * 10 ^ y.length ≤ (a.toNat - 48) * 10 ^ y.length :=
          Nat.mul_le_mul_right _ (by omega)
        rw [Nat.add_mul, Nat.one_mul] at hm
        have hne : a ≠ b := fun e => by rw [e] at h; exact Nat.lt_irrefl _ h
        have hnlt : ¬ a < b := fun e => by have := hlt.mp e; omega
        constructor
        · simp only [GoString.less, hnlt, hgt.mpr h, if_true, if_false, Bool.false_eq_true,
            false_iff]
          omega
        · constructor
          · intro e; exact absurd (List.cons.inj e).1 hne
          · intro e; omega

theorem canonical_pow_le (y : GoString) (hy : semver.canonical y) (hlen : 2 ≤ y.length) :
    10 ^ (y.length - 1) ≤ semver.numeral y := by
  obtain ⟨-, hd, hz⟩ := hy
  cases y with
  | nil => simp at hlen
  | cons c t =>
    rw [numeral_cons]
    have hc := (isDigit_iff c).mp (hd c (List.mem_cons_self c t))
    have hc0 : c.toNat ≠ 48 := by
      intro e
      have : c = '0' := char_eq_of_toNat_eq c '0' e
      have := hz (by simp [this])
      omega
    have : 1 * 10 ^ t.length ≤ (c.toNat - 48) * 10 ^ t.length :=
      Nat.mul_le_mul_right _ (by omega)
    simp only [List.length_cons, Nat.add_sub_cancel]
    omega

theorem compareInt_numeral (x y : GoString) (hx : semver.canonical x) (hy : semver.canonical y) :
    (semver.compareInt x y < 0 ↔ semver.numeral x < semver.numeral y) ∧
    (semver.compareInt x y = 0 ↔ semver.numeral x = semver.numeral y) := by
  have hxl := numeral_lt_pow x hx.2.1
  have hyl := numeral_lt_pow y hy.2.1
  have hx1 : 1 ≤ x.length := List.length_pos.mpr hx.1
  have hy1 : 1 ≤ y.length := List.length_pos.mpr hy.1
  unfold semver.compareInt
  by_cases hxy : x = y
  · simp [hxy]
  · rw [if_neg hxy]
    by_cases h1 : x.length < y.length
    · rw [if_pos h1]
      have h2 := canonical_pow_le y hy (by omega)
      have h3 : 10 ^ x.length ≤ 10 ^ (y.length - 1) :=
        Nat.pow_le_pow_right (by norm_num) (by omega)
      constructor
      · simp; omega
      · simp; omega
    · rw [if_neg h1]
      by_cases h2 : x.length > y.length
      · rw [if_pos h2]
        have h3 := canonical_pow_le x hx (by omega)
        have h4 : 10 ^ y.length ≤ 10 ^ (x.length - 1) :=
          Nat.pow_le_pow_right (by norm_num) (by omega)
        constructor
        · simp; omega
        · simp; omega
      · rw [if_neg h2]
        obtain ⟨l1, l2⟩ := less_iff_numeral x y hx.2.1 hy.2.1 (by omega)
        have hne : semver.numeral x ≠ semver.numeral y := fun e => hxy (l2.mpr e)
        by_cases h3 : GoString.less x y = true
        · rw [if_pos h3]
          have := l1.mp h3
          constructor
          · simp; omega
          · simp; omega
        · rw [if_neg h3]
          have : ¬ semver.numeral x < semver.numeral y := fun e => h3 (l1.mpr e)
          constructor
          · simp; omega
          · simp; omega


theorem parseInt_canonical (v t rest : GoString) (h : semver.parseInt v = some (t, rest)) :
    semver.canonical t ∧ ∃ c, v.head? = some c ∧ semver.isDigit c = true := by
  cases v with
  | nil => simp [semver.parseInt] at h
  | cons c v =>
    unfold semver.parseInt at h
    simp only at h
    split at h
    · exact absurd h (by simp)
    · rename_i hc
      have hdig : semver.isDigit c = true := by
        rw [isDigit_iff]
        have h1 : ¬ c < '0' := fun e => hc (Or.inl e)
        have h2 : ¬ '9' < c := fun e => hc (Or.inr e)
        have h1' : ¬ c.toNat < '0'.toNat := h1
        have h2' : ¬ '9'.toNat < c.toNat := h2
        have e0 : '0'.toNat = 48 := rfl
        have e9 : '9'.toNat = 57 := rfl
        omega
      split at h
      · exact absurd h (by simp)
      · rename_i hz
        simp only [Option.some.injEq, Prod.mk.injEq] at h
        obtain ⟨ht, -⟩ := h
        have htw : (c :: v).takeWhile semver.isDigit = c :: v.takeWhile semver.isDigit := by
          simp [List.takeWhile_cons, hdig]
        refine ⟨⟨?_, ?_, ?_⟩, c, rfl, hdig⟩
        · rw [← ht, htw]; simp
        · intro d hd
          rw [← ht] at hd
          exact (List.mem_takeWhile_imp hd)
        · intro h0
          rw [← ht, htw] at h0
          simp only [List.head?_cons, Option.some.injEq] at h0
          rw [← ht]
          by_contra hne
          exact hz ⟨h0, hne⟩
    
theorem parse_tail_numbers (p p1 : semver.parsed) (v : GoString)
    (h : semver.parse.tail p v = some p1) :
    p1.major = p.major ∧ p1.minor = p.minor ∧ p1.patch = p.patch := by
  unfold semver.parse.tail at h
  simp only at h
  split at h
  · exact absurd h (by simp)
  · rename_i q w hq
    split at h
    · exact absurd h (by simp)
    · rename_i q2 w2 hq2
      split at h
      · exact absurd h (by simp)
      · simp only [Option.some.injEq] at h
        subst h
        have e1 : q.major = p.major ∧ q.minor = p.minor ∧ q.patch = p.patch := by
          split at hq
          · split at hq
            · exact absurd hq (by simp)
            · simp only [Option.some.injEq, Prod.mk.injEq] at hq
              rw [← hq.1]
              exact ⟨rfl, rfl, rfl⟩
          · simp only [Option.some.injEq, Prod.mk.injEq] at hq
            rw [← hq.1]
            exact ⟨rfl, rfl, rfl⟩
        have e2 : q2.major = q.major ∧ q2.minor = q.minor ∧ q2.patch = q.patch := by
          split at hq2
          · split at hq2
            · exact absurd hq2 (by simp)
            · simp only [Option.some.injEq, Prod.mk.injEq] at hq2
              rw [← hq2.1]
              exact ⟨rfl, rfl, rfl⟩
          · simp only [Option.some.injEq, Prod.mk.injEq] at hq2
            rw [← hq2.1]
            exact ⟨rfl, rfl, rfl⟩
        exact ⟨e2.1.trans e1.1, e2.2.1.trans e1.2.1, e2.2.2.trans e1.2.2⟩

theorem canonical_zero : semver.canonical "0".toList := by
  refine ⟨by simp, ?_, by simp⟩
  intro c hc
  simp at hc
  subst hc
  rfl

theorem parse_canonical (core : GoString) (p : semver.parsed)
    (h : semver.parse ('v' :: core) = some p) :
    semver.canonical p.major ∧ semver.canonical p.minor ∧ semver.canonical p.patch ∧
    ∃ c, core.head? = some c ∧ semver.isDigit c = true := by
  unfold semver.parse at h
  simp only [ne_eq, not_true_eq_false, if_false] at h
  split at h
  · exact absurd h (by simp)
  · rename_i major v1 h1
    obtain ⟨cM, hhead⟩ := parseInt_canonical core major v1 h1
    split at h
    · simp only [Option.some.injEq] at h
      subst h
      exact ⟨cM, canonical_zero, canonical_zero, hhead⟩
    · split at h
      · exact absurd h (by simp)
      · split at h
        · exact absurd h (by simp)
        · rename_i minor v2 h2
          obtain ⟨cm, -⟩ := parseInt_canonical _ minor v2 h2
          split at h
          · simp only [Option.some.injEq] at h
            subst h
            exact ⟨cM, cm, canonical_zero, hhead⟩
          · split at h
            · exact absurd h (by simp)
            · split at h
              · exact absurd h (by simp)
              · rename_i patch v3 h3
                obtain ⟨cp, -⟩ := parseInt_canonical _ patch v3 h3
                obtain ⟨e1, e2, e3⟩ := parse_tail_numbers _ p _ h
                rw [e1, e2, e3]
                exact ⟨cM, cm, cp, hhead⟩


theorem parse_v1_17_0 : semver.parse "v1.17.0".toList =
    some { major := "1".toList, minor := "17".toList, patch := "0".toList } := by
  decide

theorem canonical_of_parse_v1_17_0 :
    semver.canonical "1".toList ∧ semver.canonical "17".toList ∧ semver.canonical "0".toList := by
  have h := parse_canonical "1.17.0".toList _ parse_v1_17_0
  exact ⟨h.1, h.2.1, h.2.2.1⟩

theorem Compare_v1_17_0 (core : GoString) (p : semver.parsed)
    (h : semver.parse ('v' :: core) = some p) :
    semver.Compare ('v' :: core) "v1.17.0".toList < 0 ↔ p.below 1 17 0 := by
  obtain ⟨cM, cm, cp, -⟩ := parse_canonical core p h
  obtain ⟨k1, k17, k0⟩ := canonical_of_parse_v1_17_0
  obtain ⟨a1, a2⟩ := compareInt_numeral p.major "1".toList cM k1
  obtain ⟨b1, b2⟩ := compareInt_numeral p.minor "17".toList cm k17
  obtain ⟨c1, c2⟩ := compareInt_numeral p.patch "0".toList cp k0
  have n1 : semver.numeral "1".toList = 1 := by decide
  have n17 : semver.numeral "17".toList = 17 := by decide
  have n0 : semver.numeral "0".toList = 0 := by decide
  rw [n1] at a1 a2
  rw [n17] at b1 b2
  rw [n0] at c1 c2
  unfold semver.Compare
  rw [h, parse_v1_17_0]
  simp only [semver.parsed.below]
  by_cases hM : semver.compareInt p.major "1".toList = 0
  · rw [if_neg (not_not.mpr hM)]
    have eM := a2.mp hM
    by_cases hm : semver.compareInt p.minor "17".toList = 0
    · rw [if_neg (not_not.mpr hm)]
      have em := b2.mp hm
      by_cases hp : semver.compareInt p.patch "0".toList = 0
      · rw [if_neg (not_not.mpr hp)]
        have ep := c2.mp hp
        unfold semver.comparePrerelease
        by_cases hpre : p.prerelease = []
        · simp [hpre, eM, em, ep]
        · simp [hpre, eM, em, ep]
      · rw [if_pos hp]
        have : semver.numeral p.patch ≠ 0 := fun e => hp (c2.mpr e)
        rw [c1]
        constructor
        · intro e; omega
        · intro e; omega
    · rw [if_pos hm]
      have : semver.numeral p.minor ≠ 17 := fun e => hm (b2.mpr e)
      rw [b1]
      constructor
      · intro e; exact Or.inr ⟨eM, Or.inl e⟩
      · intro e; omega
  · rw [if_pos hM]
    have : semver.numeral p.major ≠ 1 := fun e => hM (a2.mpr e)
    rw [a1]
    constructor
    · intro e; exact Or.inl e
    · intro e; omega

/-- C4: for a version `core` whose form with a `v` in front is a valid
semantic version, given as `core` or as `v` followed by `core`:
`downloadURLVersion` returns `v` followed by `core` when the version precedes
1.17.0 (numbers compared as numbers, a pre-release of 1.17.0 preceding it),
and `core` itself, which starts with a digit and so has no leading `v`, when
it does not. -/
theorem downloadURLVersion_boundary (core : GoString) (p : semver.parsed)
    (hvalid : semver.parse ('v' :: core) = some p) :
    (p.below 1 17 0 →
      downloadURLVersion core = 'v' :: core ∧ downloadURLVersion ('v' :: core) = 'v' :: core) ∧
    (¬ p.below 1 17 0 →
      downloadURLVersion core = core ∧ downloadURLVersion ('v' :: core) = core) ∧
    (∃ c, core.head? = some c ∧ semver.isDigit c = true) := by
  obtain ⟨-, -, -, c, hc, hdig⟩ := parse_canonical core p hvalid
  have hcmp := Compare_v1_17_0 core p hvalid
  obtain ⟨rest, rfl⟩ : ∃ rest, core = c :: rest := by
    cases core with
    | nil => simp at hc
    | cons d rest =>
      simp only [List.head?_cons, Option.some.injEq] at hc
      exact ⟨rest, by rw [hc]⟩
  have hcv : c ≠ 'v' := by
    intro e
    rw [e] at hdig
    exact absurd hdig (by decide)
  have hp1 : strings.HasPrefix (c :: rest) "v".toList = false := by
    simp [strings.HasPrefix, List.isPrefixOf, Ne.symm hcv]
  have hp2 : strings.HasPrefix ('v' :: c :: rest) "v".toList = true := by
    simp [strings.HasPrefix, List.isPrefixOf]
  have htrim : strings.TrimLeft ('v' :: c :: rest) "v".toList = c :: rest := by
    simp [strings.TrimLeft, List.dropWhile, hcv]
  have e1 : downloadURLVersion (c :: rest) =
      if semver.Compare ('v' :: c :: rest) "v1.17.0".toList < 0 then 'v' :: c :: rest
      else c :: rest := by
    unfold downloadURLVersion
    simp only [hp1, Bool.not_false, if_true]
    rw [show "v".toList ++ (c :: rest) = 'v' :: c :: rest from rfl, htrim]
  have e2 : downloadURLVersion ('v' :: c :: rest) =
      if semver.Compare ('v' :: c :: rest) "v1.17.0".toList < 0 then 'v' :: c :: rest
      else c :: rest := by
    unfold downloadURLVersion
    simp only [hp2, Bool.not_true, Bool.false_eq_true, if_false]
    rw [htrim]
  refine ⟨?_, ?_, c, rfl, hdig⟩
  · intro hb
    rw [e1, e2, if_pos (hcmp.mpr hb)]
    exact ⟨rfl, rfl⟩
  · intro hb
    rw [e1, e2, if_neg (fun e => hb (hcmp.mp e))]
    exact ⟨rfl, rfl⟩

/-- Witness of C4: 1.9.0 precedes 1.17.0 although `9` follows `1` as text. -/
theorem downloadURLVersion_boundary_witness :
    downloadURLVersion "1.9.0".toList = "v1.9.0".toList ∧
    downloadURLVersion "v1.9.0".toList = "v1.9.0".toList :=
  (downloadURLVersion_boundary "1.9.0".toList
    { major := "1".toList, minor := "9".toList, patch := "0".toList } (by decide)).1
    (Or.inr ⟨by decide, Or.inl (by decide)⟩)


/-! ## The providers -/

/-- C9 (code defect): R 3.6.1 is not installed, the download and the
extraction succeed and `./configure` fails. `Install` returns the install
directory and no error, the directory exists afterwards (`MkdirAsNeeded`
created it before `./configure` ran), and `Install` run again takes the
already-installed return without any call. -/
theorem RLangBuildTool_Install_ignores_failed_build :
    ({} : InstallTarget).PathExists "/tools/R/R-3.6.1".toList = false ∧
    (Runtime.configureFails.Run
      { Command := "./configure --with-x=no --prefix=/tools/R/R-3.6.1".toList,
        Directory := "/tools/R/src/R-3.6.1".toList }).2 = some "exit status 1".toList ∧
    ((NewRLangBuildTool { Version := "3.6.1".toList }).Install Runtime.configureFails {}).1 =
      ("/tools/R/R-3.6.1".toList, none) ∧
    ((NewRLangBuildTool { Version := "3.6.1".toList }).Install Runtime.configureFails {}).2.PathExists
      "/tools/R/R-3.6.1".toList = true ∧
    (NewRLangBuildTool { Version := "3.6.1".toList }).Install Runtime.configureFails
      ((NewRLangBuildTool { Version := "3.6.1".toList }).Install Runtime.configureFails {}).2 =
      (("/tools/R/R-3.6.1".toList, none),
        ((NewRLangBuildTool { Version := "3.6.1".toList }).Install Runtime.configureFails {}).2) := by
  refine ⟨by decide, by decide, by decide, by decide, by decide⟩


/-! ## The root override and the Maven download address -/

/-- C11 (code defect): with the root override `r` and the commands `make` and
`make test`, the first command is dispatched in the target directory joined
with `r` and the second in that directory joined with `r` once more:
`RunCommands` joins the override onto `targetDir` before every command it
dispatches. -/
theorem RunCommands_joins_root_at_every_command :
    (RunCommands Platform.quiet
      { Target := { Commands := ["make".toList, "make test".toList], Root := "r".toList },
        TargetDir := "/work/pkg".toList } {}).2.dispatched =
      [.ExecToStdout "make".toList "/work/pkg/r".toList,
       .ExecToStdout "make test".toList "/work/pkg/r/r".toList] ∧
    filepath.Join ["/work/pkg".toList, "r".toList] = "/work/pkg/r".toList := by
  constructor <;> decide

/-- C13 (code defect): for every version the address `DownloadUrl` builds has
two slashes between `maven` and `maven-<major>`, the mirror ending with a slash
and the format adding one; for 3.3.3 it is not the address that the comment
above `MAVEN_DIST_MIRROR` gives. -/
theorem MavenBuildTool_DownloadUrl_doubles_slash (spec : BuildToolSpec) :
    (NewMavenBuildTool spec).DownloadUrl =
      "https://archive.apache.org/dist/maven//maven-".toList ++
        (NewMavenBuildTool spec).MajorVersion ++ "/".toList ++ spec.Version ++
        "/binaries/apache-maven-".toList ++ spec.Version ++ "-bin.tar.gz".toList ∧
    (NewMavenBuildTool { Version := "3.3.3".toList }).DownloadUrl =
      ("https://archive.apache.org/dist/maven//maven-3/3.3.3/binaries/" ++
        "apache-maven-3.3.3-bin.tar.gz").toList ∧
    (NewMavenBuildTool { Version := "3.3.3".toList }).DownloadUrl ≠
      ("https://archive.apache.org/dist/maven/maven-3/3.3.3/binaries/" ++
        "apache-maven-3.3.3-bin.tar.gz").toList := by
  refine ⟨?_, by decide, by decide⟩
  simp [MavenBuildTool.DownloadUrl, MAVEN_DIST_MIRROR, MavenBuildTool.ArchiveFile,
    MavenBuildTool.Version, NewMavenBuildTool]

/-! ## Cutting a text at a separator -/

theorem Cut_append (sep : Char) (a b : GoString) (h : sep ∉ a) :
    strings.Cut sep (a ++ sep :: b) = some (a, b) := by
  induction a with
  | nil => simp [strings.Cut]
  | cons c a ih =>
    have hc : c ≠ sep := fun e => h (by simp [e])
    have ha : sep ∉ a := fun e => h (List.mem_cons_of_mem c e)
    simp [strings.Cut, hc, ih ha]

theorem Cut_of_not_mem (sep : Char) (s : GoString) (h : sep ∉ s) : strings.Cut sep s = none := by
  induction s with
  | nil => rfl
  | cons c s ih =>
    have hc : c ≠ sep := fun e => h (by simp [e])
    have hs : sep ∉ s := fun e => h (List.mem_cons_of_mem c e)
    simp [strings.Cut, hc, ih hs]

theorem exists_first_cut (sep : Char) (s : GoString) (h : sep ∈ s) :
    ∃ a b, s = a ++ sep :: b ∧ sep ∉ a := by
  induction s with
  | nil => simp at h
  | cons c s ih =>
    by_cases hc : c = sep
    · exact ⟨[], s, by simp [hc], by simp⟩
    · have hs : sep ∈ s := by
        rcases List.mem_cons.mp h with e | e
        · exact absurd e.symm hc
        · exact e
      obtain ⟨a, b, hab, hna⟩ := ih hs
      refine ⟨c :: a, b, by simp [hab], ?_⟩
      intro e
      rcases List.mem_cons.mp e with e | e
      · exact hc e.symm
      · exact hna e

theorem Split_of_not_mem (s : GoString) (sep : Char) (h : sep ∉ s) : strings.Split s sep = [s] := by
  have hc : List.count sep s = 0 := List.count_eq_zero.mpr h
  simp [strings.Split, strings.Count, hc, strings.genSplit]

theorem Split_append (a b : GoString) (sep : Char) (h : sep ∉ a) :
    strings.Split (a ++ sep :: b) sep = a :: strings.Split b sep := by
  have hc : List.count sep (a ++ sep :: b) = List.count sep b + 1 := by
    simp [List.count_append, List.count_eq_zero.mpr h]
  simp [strings.Split, strings.Count, hc, strings.genSplit, Cut_append sep a b h]

theorem takeWhile_ne_of_not_mem (sep : Char) (s : GoString) (h : sep ∉ s) :
    s.takeWhile (fun c => decide (c ≠ sep)) = s := by
  rw [List.takeWhile_eq_self_iff]
  intro c hc
  have : c ≠ sep := fun e => h (e ▸ hc)
  simpa using this

theorem takeWhile_ne_append (sep : Char) (a b : GoString) (h : sep ∉ a) :
    (a ++ sep :: b).takeWhile (fun c => decide (c ≠ sep)) = a := by
  induction a with
  | nil => simp [List.takeWhile]
  | cons c a ih =>
    have hc : c ≠ sep := fun e => h (by simp [e])
    have ha : sep ∉ a := fun e => h (List.mem_cons_of_mem c e)
    have := ih ha
    simp only [List.cons_append, List.takeWhile_cons, ne_eq, hc, not_false_eq_true,
      decide_True, if_true, List.cons.injEq, true_and]
    simpa using this

/-- The first piece of `strings.Split` exists and is the text before the first
separator. -/
theorem Split_first (s : GoString) (sep : Char) :
    (strings.Split s sep).get? 0 = some (s.takeWhile (fun c => decide (c ≠ sep))) := by
  by_cases h : sep ∈ s
  · obtain ⟨a, b, rfl, hna⟩ := exists_first_cut sep s h
    rw [Split_append a b sep hna, takeWhile_ne_append sep a b hna]
    rfl
  · rw [Split_of_not_mem s sep h, takeWhile_ne_of_not_mem sep s h]
    rfl

/-! ## The major version and the build argument -/

/-- C12: for every version string and each provider (Maven, Gradle, RLang,
Flutter) the index expression `parts[0]` of `MajorVersion` is in range, so
`MajorVersion` never fails, and it returns the text before the first `.`: a
prefix of the version without a `.` that is the whole version or is followed
by a `.` (the whole version when it has no dot, the empty string when it is
empty or starts with a dot). -/
theorem MajorVersion_is_leading_segment (spec : BuildToolSpec) :
    (strings.Split spec.Version '.').get? 0 =
      some (spec.Version.takeWhile (fun c => decide (c ≠ '.'))) ∧
    (NewMavenBuildTool spec).MajorVersion = spec.Version.takeWhile (fun c => decide (c ≠ '.')) ∧
    (NewGradleBuildTool spec).MajorVersion = spec.Version.takeWhile (fun c => decide (c ≠ '.')) ∧
    (NewRLangBuildTool spec).MajorVersion = spec.Version.takeWhile (fun c => decide (c ≠ '.')) ∧
    (NewFlutterBuildTool spec).MajorVersion =
      spec.Version.takeWhile (fun c => decide (c ≠ '.')) ∧
    '.' ∉ spec.Version.takeWhile (fun c => decide (c ≠ '.')) ∧
    (spec.Version = spec.Version.takeWhile (fun c => decide (c ≠ '.')) ∨
      ∃ rest, spec.Version =
        spec.Version.takeWhile (fun c => decide (c ≠ '.')) ++ '.' :: rest) ∧
    ('.' ∉ spec.Version → spec.Version.takeWhile (fun c => decide (c ≠ '.')) = spec.Version) ∧
    (spec.Version.head? = none ∨ spec.Version.head? = some '.' →
      spec.Version.takeWhile (fun c => decide (c ≠ '.')) = []) := by
  have hfirst := Split_first spec.Version '.'
  have hget : (strings.Split spec.Version '.').getD 0 [] =
      spec.Version.takeWhile (fun c => decide (c ≠ '.')) := by
    rw [List.getD_eq_getElem?_getD, ← List.get?_eq_getElem?, hfirst]
    rfl
  refine ⟨hfirst, hget, hget, hget, hget, ?_, ?_, ?_, ?_⟩
  · intro h
    have := List.mem_takeWhile_imp h
    simp at this
  · by_cases h : '.' ∈ spec.Version
    · obtain ⟨a, b, hab, hna⟩ := exists_first_cut '.' spec.Version h
      right
      refine ⟨b, ?_⟩
      rw [hab, takeWhile_ne_append '.' a b hna]
    · left
      rw [takeWhile_ne_of_not_mem '.' spec.Version h]
  · intro h
    exact takeWhile_ne_of_not_mem '.' spec.Version h
  · intro h
    cases hv : spec.Version with
    | nil => rfl
    | cons c rest =>
      rw [hv] at h
      simp only [List.head?_cons, Option.some.injEq] at h
      rcases h with h | h
      · exact absurd h (by simp)
      · subst h
        simp [List.takeWhile]

/-- Witness of C12: the major version of 3.6.1 is 3, that of a version without
a dot is the version. -/
theorem MajorVersion_is_leading_segment_witness :
    (NewRLangBuildTool { Version := "3.6.1".toList }).MajorVersion = "3".toList ∧
    ("17".toList).takeWhile (fun c => decide (c ≠ '.')) = "17".toList :=
  ⟨(MajorVersion_is_leading_segment { Version := "3.6.1".toList }).2.2.2.1,
    (MajorVersion_is_leading_segment { Version := "17".toList }).2.2.2.2.2.2.2.1 (by decide)⟩

theorem SplitN_two_of_not_mem (s : GoString) (sep : Char) (h : sep ∉ s) :
    strings.SplitN s sep 2 = [s] := by
  unfold strings.SplitN
  simp only [show (2 : Nat) ≠ 0 by decide, if_false]
  cases hn : min 2 (s.length + 1) - 1 with
  | zero => rfl
  | succ n => simp [strings.genSplit, Cut_of_not_mem sep s h]

theorem SplitN_two_append (a b : GoString) (sep : Char) (h : sep ∉ a) :
    strings.SplitN (a ++ sep :: b) sep 2 = [a, b] := by
  unfold strings.SplitN
  have hn : min 2 ((a ++ sep :: b).length + 1) - 1 = 1 := by
    simp only [List.length_append, List.length_cons]
    omega
  simp only [show (2 : Nat) ≠ 0 by decide, if_false, hn, strings.genSplit,
    Cut_append sep a b h]

/-- C17: `parseArgs` returns the empty package name, the argument as target
and no error for an argument that does not start with `@`; the text between
the `@` and the first `:` as package name, the text after that `:` as target
and no error for an argument that starts with `@` and holds a `:` after it;
and an error with empty package name and target for an argument that starts
with `@` and holds no `:`. -/
theorem parseArgs_cases (a : GoString) :
    (strings.HasPrefix a "@".toList = false → parseArgs a = ([], a, none)) ∧
    (∀ rest, a = '@' :: rest → ':' ∈ rest →
      ∃ pkgName target, ':' ∉ pkgName ∧ a = "@".toList ++ pkgName ++ ":".toList ++ target ∧
        parseArgs a = (pkgName, target, none)) ∧
    (∀ rest, a = '@' :: rest → ':' ∉ rest →
      (parseArgs a).1 = [] ∧ (parseArgs a).2.1 = [] ∧
      (parseArgs a).2.2 = some ("unable to parse package/target definition: ".toList ++ a)) := by
  refine ⟨?_, ?_, ?_⟩
  · intro h
    simp only [parseArgs, h, Bool.false_eq_true, if_false]
  · intro rest ha hmem
    obtain ⟨p, t, hpt, hnp⟩ := exists_first_cut ':' rest hmem
    refine ⟨p, t, hnp, by simp [ha, hpt], ?_⟩
    have hpre : strings.HasPrefix a "@".toList = true := by
      simp [ha, strings.HasPrefix, List.isPrefixOf]
    have htrim : strings.TrimPrefix a "@".toList = p ++ ':' :: t := by
      simp only [strings.TrimPrefix, hpre, if_true]
      simp [ha, hpt]
    simp only [parseArgs, hpre, if_true, htrim, SplitN_two_append p t ':' hnp]
    simp
  · intro rest ha hmem
    have hpre : strings.HasPrefix a "@".toList = true := by
      simp [ha, strings.HasPrefix, List.isPrefixOf]
    have htrim : strings.TrimPrefix a "@".toList = rest := by
      simp only [strings.TrimPrefix, hpre, if_true]
      simp [ha]
    simp only [parseArgs, hpre, if_true, htrim, SplitN_two_of_not_mem rest ':' hmem]
    simp

/-- Witness of C17: a package and a target whose name holds a `:`. -/
theorem parseArgs_cases_witness :
    parseArgs "build".toList = ([], "build".toList, none) ∧
    (∃ pkgName target, ':' ∉ pkgName ∧
      "@web:test:unit".toList = "@".toList ++ pkgName ++ ":".toList ++ target ∧
      parseArgs "@web:test:unit".toList = (pkgName, target, none)) ∧
    (parseArgs "@web".toList).2.2 =
      some "unable to parse package/target definition: @web".toList :=
  ⟨(parseArgs_cases "build".toList).1 (by decide),
    (parseArgs_cases "@web:test:unit".toList).2.1 "web:test:unit".toList rfl (by decide),
    ((parseArgs_cases "@web".toList).2.2 "web".toList rfl (by decide)).2.2⟩

/-! ## The environment assignments of a phase -/

theorem dropWhile_ne_append (sep : Char) (a b : GoString) (h : sep ∉ a) :
    (a ++ sep :: b).dropWhile (fun c => decide (c ≠ sep)) = sep :: b := by
  induction a with
  | nil => simp [List.dropWhile]
  | cons c a ih =>
    have hc : c ≠ sep := fun e => h (by simp [e])
    have ha : sep ∉ a := fun e => h (List.mem_cons_of_mem c e)
    have := ih ha
    simp only [List.cons_append, List.dropWhile_cons, ne_eq, hc, not_false_eq_true,
      decide_True, if_true]
    simpa using this

theorem Split_assignment (s : GoString) (h : '=' ∈ s) :
    (strings.Split s '=').get? 0 = some (assignmentKey s) ∧
    (strings.Split s '=').get? 1 = some (assignmentValue s) := by
  obtain ⟨a, b, rfl, hna⟩ := exists_first_cut '=' s h
  refine ⟨Split_first _ _, ?_⟩
  rw [Split_append a b '=' hna]
  unfold assignmentValue
  rw [dropWhile_ne_append '=' a b hna]
  exact Split_first b '='

theorem Execute_environment_cons_ok (targetDir : GoString) (s : GoString) (rest : List GoString)
    (env : Environ) (h : '=' ∈ s) :
    buildCmd.Execute.environment targetDir (s :: rest) env =
      buildCmd.Execute.environment targetDir rest (applyAssignment targetDir env s) := by
  obtain ⟨h0, h1⟩ := Split_assignment s h
  simp only [buildCmd.Execute.environment, h0, h1, applyAssignment]

theorem Execute_environment_cons_fault (targetDir : GoString) (s : GoString)
    (rest : List GoString) (env : Environ) (h : '=' ∉ s) :
    buildCmd.Execute.environment targetDir (s :: rest) env = none := by
  simp [buildCmd.Execute.environment, Split_of_not_mem s '=' h]

theorem Execute_environment_all_ok (targetDir : GoString) :
    ∀ (l : List GoString) (env : Environ), (∀ s ∈ l, '=' ∈ s) →
      buildCmd.Execute.environment targetDir l env =
        some (l.foldl (applyAssignment targetDir) env) := by
  intro l
  induction l with
  | nil => intro env _; rfl
  | cons s rest ih =>
    intro env h
    rw [Execute_environment_cons_ok targetDir s rest env (h s (List.mem_cons_self s rest)),
      ih _ (fun x hx => h x (List.mem_cons_of_mem s hx))]
    rfl

theorem applyAssignment_other (targetDir : GoString) (env : Environ) (x k : GoString)
    (h : assignmentKey x ≠ k) : applyAssignment targetDir env x k = env k := by
  unfold applyAssignment os.Setenv
  split
  · rfl
  · simp [Ne.symm h]

theorem foldl_applyAssignment_other (targetDir : GoString) (k : GoString) :
    ∀ (l : List GoString) (env : Environ), (∀ x ∈ l, assignmentKey x ≠ k) →
      l.foldl (applyAssignment targetDir) env k = env k := by
  intro l
  induction l with
  | nil => intro env _; rfl
  | cons x rest ih =>
    intro env h
    rw [List.foldl_cons, ih _ (fun y hy => h y (List.mem_cons_of_mem x hy)),
      applyAssignment_other targetDir env x k (h x (List.mem_cons_self x rest))]

/-- C16: the loop of `Execute` over the declared environment assignments runs
into the index-out-of-range fault exactly when some assignment holds no `=`;
when every assignment holds an `=`, the loop ends without fault and has
applied the assignments one after the other, in declared order, each by
`os.Setenv` of its key and value, so that a key has the value of the last
assignment to it (for a key and a value that `os.Setenv` accepts). -/
theorem Execute_environment_fault_iff (targetDir : GoString) (l : List GoString)
    (env : Environ) :
    (buildCmd.Execute.environment targetDir l env = none ↔ ∃ s ∈ l, '=' ∉ s) ∧
    ((∀ s ∈ l, '=' ∈ s) →
      buildCmd.Execute.environment targetDir l env =
        some (l.foldl (applyAssignment targetDir) env)) ∧
    (∀ before s after, l = before ++ s :: after → (∀ x ∈ l, '=' ∈ x) →
      (∀ x ∈ after, assignmentKey x ≠ assignmentKey s) →
      assignmentKey s ≠ [] → Char.ofNat 0 ∉ assignmentKey s →
      Char.ofNat 0 ∉ strings.Replace (assignmentValue s) "{PKGDIR}".toList targetDir →
      ∃ env1, buildCmd.Execute.environment targetDir l env = some env1 ∧
        env1 (assignmentKey s) =
          some (strings.Replace (assignmentValue s) "{PKGDIR}".toList targetDir)) := by
  refine ⟨?_, Execute_environment_all_ok targetDir l env, ?_⟩
  · induction l generalizing env with
    | nil => simp [buildCmd.Execute.environment]
    | cons s rest ih =>
      by_cases h : '=' ∈ s
      · rw [Execute_environment_cons_ok targetDir s rest env h, ih]
        constructor
        · rintro ⟨x, hx, hne⟩
          exact ⟨x, List.mem_cons_of_mem s hx, hne⟩
        · rintro ⟨x, hx, hne⟩
          rcases List.mem_cons.mp hx with e | e
          · rw [e] at hne; exact absurd h hne
          · exact ⟨x, e, hne⟩
      · rw [Execute_environment_cons_fault targetDir s rest env h]
        simp only [true_iff]
        exact ⟨s, List.mem_cons_self s rest, h⟩
  · intro before s after hl hall hafter hkey hnul hval
    refine ⟨_, Execute_environment_all_ok targetDir l env hall, ?_⟩
    rw [hl, List.foldl_append, List.foldl_cons,
      foldl_applyAssignment_other targetDir (assignmentKey s) after _ hafter]
    simp only [applyAssignment, os.Setenv]
    have hk : '=' ∉ assignmentKey s := by
      intro e
      have := List.mem_takeWhile_imp e
      simp at this
    rw [if_neg (by simp only [not_or]; exact ⟨hkey, hk, hnul, hval⟩)]
    simp

/-- Witness of C16: a list with an assignment without `=`, and a list that
sets `FOO` twice. -/
theorem Execute_environment_fault_iff_witness :
    buildCmd.Execute.environment "/work/pkg".toList ["FOO=1".toList, "BAR".toList]
      (fun _ => none) = none ∧
    (∃ env1, buildCmd.Execute.environment "/work/pkg".toList
        ["FOO=1".toList, "FOO=2".toList, "BAR=x".toList] (fun _ => none) = some env1 ∧
      env1 (assignmentKey "FOO=2".toList) =
        some (strings.Replace (assignmentValue "FOO=2".toList) "{PKGDIR}".toList
          "/work/pkg".toList)) :=
  ⟨(Execute_environment_fault_iff "/work/pkg".toList ["FOO=1".toList, "BAR".toList]
      (fun _ => none)).1.mpr ⟨"BAR".toList, by decide, by decide⟩,
    (Execute_environment_fault_iff "/work/pkg".toList
      ["FOO=1".toList, "FOO=2".toList, "BAR=x".toList] (fun _ => none)).2.2
      ["FOO=1".toList] "FOO=2".toList ["BAR=x".toList] rfl (by decide) (by decide)
      (by decide) (by decide) (by decide)⟩

/-! ## The Flutter download address -/

theorem TemplateToString_flutter (channel opsys arch version extension : GoString) :
    TemplateToString flutterDistMirrorTemplate
      [("Channel".toList, channel), ("OS".toList, opsys), ("Arch".toList, arch),
       ("Version".toList, version), ("Extension".toList, extension)] =
      (flutterURL channel opsys version extension, none) := by
  have ht : flutterDistMirrorTemplate =
      "https://storage.googleapis.com/flutter_infra/releases/".toList ++
        ("\x7b\x7b.Channel\x7d\x7d".toList ++ ("/".toList ++ ("\x7b\x7b.OS\x7d\x7d".toList ++
        ("/flutter_".toList ++ ("\x7b\x7b.OS\x7d\x7d".toList ++ ("_".toList ++
        ("\x7b\x7b.Version\x7d\x7d".toList ++ ("-".toList ++
        ("\x7b\x7b.Channel\x7d\x7d".toList ++ (".".toList ++
        "\x7b\x7b.Extension\x7d\x7d".toList)))))))))) := by
    decide
  rw [ht]
  simp [TemplateToString, TemplateToString.expand, flutterURL, List.lookup]

theorem Split_length_pos (s : GoString) (sep : Char) : 1 ≤ (strings.Split s sep).length := by
  have h := Split_first s sep
  cases hs : strings.Split s sep with
  | nil => rw [hs] at h; simp at h
  | cons a l => simp

theorem FlutterBuildTool_DownloadURL_of_parts (R : Runtime) (bt : FlutterBuildTool)
    (version channel : GoString)
    (h : (if (strings.Split bt.Version '_').length > 2 then
            ((strings.Split bt.Version '_').getD 0 [], "stable".toList)
          else if (strings.Split bt.Version '_').length = 2 then
            ((strings.Split bt.Version '_').getD 0 [], (strings.Split bt.Version '_').getD 1 [])
          else (bt.Version, "stable".toList)) = (version, channel)) :
    bt.DownloadURL R =
      (flutterURL channel (flutterOS R.OS) (downloadURLVersion version) (flutterExtension R.OS),
        none) := by
  unfold FlutterBuildTool.DownloadURL
  simp only [h]
  by_cases ho : R.OS = "darwin".toList
  · simp only [ho, if_true, flutterOS, flutterExtension]
    exact TemplateToString_flutter _ _ _ _ _
  · simp only [ho, if_false, flutterOS, flutterExtension]
    exact TemplateToString_flutter _ _ _ _ _

/-- C15: for every detected OS and architecture, `FlutterBuildTool.DownloadURL`
returns no error and the address
`https://storage.googleapis.com/flutter_infra/releases/<channel>/<os>/flutter_<os>_<nver>-<channel>.<ext>`
with `nver = downloadURLVersion(ver)`, `<os>` = `macos` and `<ext>` = `zip` on
`darwin`, `<os>` = the detected OS and `<ext>` = `tar.xz` otherwise: for a
version `<ver>` the channel is `stable`, for `<ver>_<channel>` it is the given
channel, and for a version of three or more parts only the first part is used
and the channel is `stable`. The detected architecture does not change the
result. -/
theorem FlutterBuildTool_DownloadURL_address (R : Runtime) (spec : BuildToolSpec)
    (ver : GoString) (hver : '_' ∉ ver) :
    (spec.Version = ver →
      (NewFlutterBuildTool spec).DownloadURL R =
        (flutterURL "stable".toList (flutterOS R.OS) (downloadURLVersion ver)
          (flutterExtension R.OS), none)) ∧
    (∀ channel, '_' ∉ channel → spec.Version = ver ++ "_".toList ++ channel →
      (NewFlutterBuildTool spec).DownloadURL R =
        (flutterURL channel (flutterOS R.OS) (downloadURLVersion ver)
          (flutterExtension R.OS), none)) ∧
    (∀ more, '_' ∈ more → spec.Version = ver ++ "_".toList ++ more →
      (NewFlutterBuildTool spec).DownloadURL R =
        (flutterURL "stable".toList (flutterOS R.OS) (downloadURLVersion ver)
          (flutterExtension R.OS), none)) ∧
    (∀ arch, (NewFlutterBuildTool spec).DownloadURL { R with Arch := arch } =
      (NewFlutterBuildTool spec).DownloadURL R) ∧
    (R.OS = "darwin".toList → flutterOS R.OS = "macos".toList ∧
      flutterExtension R.OS = "zip".toList) ∧
    (R.OS ≠ "darwin".toList → flutterOS R.OS = R.OS ∧
      flutterExtension R.OS = "tar.xz".toList) := by
  refine ⟨?_, ?_, ?_, ?_, ?_, ?_⟩
  · intro hv
    apply FlutterBuildTool_DownloadURL_of_parts
    have hs : strings.Split (NewFlutterBuildTool spec).Version '_' = [ver] := by
      rw [show (NewFlutterBuildTool spec).Version = ver from hv]
      exact Split_of_not_mem ver '_' hver
    rw [hs]
    simp [show (NewFlutterBuildTool spec).Version = ver from hv]
  · intro channel hch hv
    apply FlutterBuildTool_DownloadURL_of_parts
    have hs : strings.Split (NewFlutterBuildTool spec).Version '_' = [ver, channel] := by
      rw [show (NewFlutterBuildTool spec).Version = ver ++ '_' :: channel by
        rw [show (NewFlutterBuildTool spec).Version = spec.Version from rfl, hv]; simp]
      rw [Split_append ver channel '_' hver, Split_of_not_mem channel '_' hch]
    rw [hs]
    simp
  · intro more hmore hv
    apply FlutterBuildTool_DownloadURL_of_parts
    obtain ⟨a, b, hab, hna⟩ := exists_first_cut '_' more hmore
    have hlen := Split_length_pos b '_'
    have hs : strings.Split (NewFlutterBuildTool spec).Version '_' =
        ver :: a :: strings.Split b '_' := by
      rw [show (NewFlutterBuildTool spec).Version = ver ++ '_' :: more by
        rw [show (NewFlutterBuildTool spec).Version = spec.Version from rfl, hv]; simp]
      rw [Split_append ver more '_' hver, hab, Split_append a b '_' hna]
    rw [hs]
    have : (ver :: a :: strings.Split b '_').length > 2 := by
      simp only [List.length_cons]
      omega
    rw [if_pos this]
    rfl
  · intro arch
    rfl
  · intro ho
    simp [flutterOS, flutterExtension, ho]
  · intro ho
    unfold flutterOS flutterExtension
    rw [if_neg ho, if_neg ho]
    exact ⟨rfl, rfl⟩

/-- Witness of C15: the beta channel of 1.12.13+hotfix.9 on macOS. -/
theorem FlutterBuildTool_DownloadURL_address_witness :
    (NewFlutterBuildTool { Version := "1.12.13+hotfix.9_beta".toList }).DownloadURL
      { Runtime.sample with OS := "darwin".toList } =
      (flutterURL "beta".toList (flutterOS "darwin".toList)
        (downloadURLVersion "1.12.13+hotfix.9".toList) (flutterExtension "darwin".toList),
        none) :=
  (FlutterBuildTool_DownloadURL_address { Runtime.sample with OS := "darwin".toList }
    { Version := "1.12.13+hotfix.9_beta".toList } "1.12.13+hotfix.9".toList (by decide)).2.1
    "beta".toList (by decide) rfl

/-! ## Cleaned paths -/

theorem genSplit_of_count_le (sep : Char) :
    ∀ (n : Nat) (s : GoString), List.count sep s ≤ n →
      strings.genSplit sep n s = strings.Split s sep := by
  intro n
  induction n with
  | zero =>
    intro s h
    have hs : sep ∉ s := List.count_eq_zero.mp (Nat.le_zero.mp h)
    rw [Split_of_not_mem s sep hs]
    rfl
  | succ n ih =>
    intro s h
    by_cases hs : sep ∈ s
    · obtain ⟨a, b, rfl, hna⟩ := exists_first_cut sep s hs
      have hc : List.count sep (a ++ sep :: b) = List.count sep b + 1 := by
        simp [List.count_append, List.count_eq_zero.mpr hna]
      rw [Split_append a b sep hna]
      simp only [strings.genSplit, Cut_append sep a b hna]
      rw [ih b (by omega)]
    · rw [Split_of_not_mem s sep hs]
      simp only [strings.genSplit, Cut_of_not_mem sep s hs]

theorem Split_append_any (sep : Char) : ∀ (n : Nat) (a b : GoString), a.length ≤ n →
    strings.Split (a ++ sep :: b) sep = strings.Split a sep ++ strings.Split b sep := by
  intro n
  induction n with
  | zero =>
    intro a b h
    have : a = [] := List.length_eq_zero.mp (Nat.le_zero.mp h)
    subst this
    rw [Split_append [] b sep (by simp), Split_of_not_mem [] sep (by simp)]
    rfl
  | succ n ih =>
    intro a b h
    by_cases ha : sep ∈ a
    · obtain ⟨a1, a2, rfl, hna⟩ := exists_first_cut sep a ha
      have hlen : a2.length ≤ n := by
        simp only [List.length_append, List.length_cons] at h
        omega
      rw [List.append_assoc, List.cons_append, Split_append a1 _ sep hna, ih a2 b hlen,
        Split_append a1 a2 sep hna]
      rfl
    · rw [Split_append a b sep ha, Split_of_not_mem a sep ha]
      rfl

theorem Join_append_singleton (l : List GoString) (x : GoString) :
    strings.Join (l ++ [x]) "/".toList =
      if l = [] then x else strings.Join l "/".toList ++ '/' :: x := by
  induction l with
  | nil => simp [strings.Join, List.intercalate]
  | cons a l ih =>
    cases l with
    | nil => simp [strings.Join, List.intercalate]
    | cons b l =>
      simp only [strings.Join, List.intercalate] at ih ⊢
      simp only [List.cons_append, List.intersperse_cons_cons, List.flatten_cons] at ih ⊢
      simp only [reduceCtorEq, if_false] at ih ⊢
      rw [ih]
      simp

theorem Split_Join (l : List GoString) (hne : l ≠ []) (h : ∀ x ∈ l, '/' ∉ x) :
    strings.Split (strings.Join l "/".toList) '/' = l := by
  induction l using List.reverseRecOn with
  | nil => exact absurd rfl hne
  | append_singleton l x ih =>
    rw [Join_append_singleton]
    have hx : '/' ∉ x := h x (by simp)
    by_cases hl : l = []
    · subst hl
      simp only [if_true, List.nil_append]
      exact Split_of_not_mem x '/' hx
    · rw [if_neg hl, Split_append_any '/' _ _ _ (Nat.le_refl _),
        ih hl (fun y hy => h y (List.mem_append_left _ hy)), Split_of_not_mem x '/' hx]

theorem cleanElems_tail (r : Bool) (e : GoString) (out : List GoString)
    (h : filepath.cleanElems r (e :: out)) : filepath.cleanElems r out :=
  h.2.2.2.2

theorem cleanElems_mem (r : Bool) : ∀ (out : List GoString), filepath.cleanElems r out →
    ∀ x ∈ out, x ≠ [] ∧ '/' ∉ x := by
  intro out
  induction out with
  | nil => intro _ x hx; simp at hx
  | cons e out ih =>
    intro h x hx
    rcases List.mem_cons.mp hx with rfl | hx
    · exact ⟨h.1, h.2.2.1⟩
    · exact ih (cleanElems_tail r e out h) x hx

theorem cleanStep_cleanElems (r : Bool) (out : List GoString) (e : GoString)
    (h : filepath.cleanElems r out) (he : '/' ∉ e) :
    filepath.cleanElems r (filepath.cleanStep r out e) := by
  unfold filepath.cleanStep
  split
  · exact h
  · rename_i h1
    have hne : e ≠ [] := fun x => h1 (Or.inl x)
    have hnd : e ≠ ".".toList := fun x => h1 (Or.inr x)
    split
    · rename_i hdd
      cases out with
      | nil =>
        cases r with
        | true => simp [filepath.cleanElems]
        | false =>
          simp only [Bool.false_eq_true, if_false]
          exact ⟨hne, hnd, he, fun _ => ⟨rfl, by simp⟩, trivial⟩
      | cons last before =>
        simp only
        split
        · rename_i hlast
          obtain ⟨hr, hall⟩ := h.2.2.2.1 hlast
          refine ⟨hne, hnd, he, fun _ => ⟨hr, ?_⟩, h⟩
          intro x hx
          rcases List.mem_cons.mp hx with rfl | hx
          · exact hlast
          · exact hall x hx
        · exact cleanElems_tail r last before h
    · rename_i hdd
      exact ⟨hne, hnd, he, fun x => absurd x hdd, h⟩

theorem foldl_cleanStep_cleanElems (r : Bool) : ∀ (l : List GoString) (out : List GoString),
    filepath.cleanElems r out → (∀ x ∈ l, '/' ∉ x) →
    filepath.cleanElems r (l.foldl (filepath.cleanStep r) out) := by
  intro l
  induction l with
  | nil => intro out h _; exact h
  | cons e l ih =>
    intro out h hl
    exact ih _ (cleanStep_cleanElems r out e h (hl e (List.mem_cons_self e l)))
      (fun x hx => hl x (List.mem_cons_of_mem e hx))

theorem cleanStep_of_cleanElems (r : Bool) (e : GoString) (out : List GoString)
    (h : filepath.cleanElems r (e :: out)) : filepath.cleanStep r out e = e :: out := by
  obtain ⟨hne, hnd, -, hdd, -⟩ := h
  unfold filepath.cleanStep
  rw [if_neg (by simp only [not_or]; exact ⟨hne, hnd⟩)]
  split
  · rename_i he
    obtain ⟨hr, hall⟩ := hdd he
    cases out with
    | nil => simp [hr]
    | cons last before =>
      simp only
      rw [if_pos (hall last (List.mem_cons_self last before))]
  · rfl

theorem foldl_cleanStep_reverse (r : Bool) : ∀ (out : List GoString),
    filepath.cleanElems r out → out.reverse.foldl (filepath.cleanStep r) [] = out := by
  intro out
  induction out with
  | nil => intro _; rfl
  | cons e out ih =>
    intro h
    rw [List.reverse_cons, List.foldl_append, ih (cleanElems_tail r e out h)]
    exact cleanStep_of_cleanElems r e out h

theorem Split_mem_no_sep (sep : Char) : ∀ (n : Nat) (s : GoString), s.length ≤ n →
    ∀ x ∈ strings.Split s sep, sep ∉ x := by
  intro n
  induction n with
  | zero =>
    intro s h x hx
    have : s = [] := List.length_eq_zero.mp (Nat.le_zero.mp h)
    subst this
    rw [Split_of_not_mem [] sep (by simp)] at hx
    simp at hx
    subst hx
    simp
  | succ n ih =>
    intro s h x hx
    by_cases hs : sep ∈ s
    · obtain ⟨a, b, rfl, hna⟩ := exists_first_cut sep s hs
      rw [Split_append a b sep hna] at hx
      rcases List.mem_cons.mp hx with rfl | hx
      · exact hna
      · have hlen : b.length ≤ n := by
          simp only [List.length_append, List.length_cons] at h
          omega
        exact ih b hlen x hx
    · rw [Split_of_not_mem s sep hs] at hx
      simp at hx
      subst hx
      exact hs

theorem Clean_eq_render (c : Char) (rest : GoString) :
    filepath.Clean (c :: rest) = filepath.render (decide (c = '/'))
      ((strings.Split (c :: rest) '/').foldl (filepath.cleanStep (decide (c = '/'))) []) := by
  unfold filepath.Clean filepath.render
  simp only
  rw [genSplit_of_count_le '/' _ _ (List.count_le_length _ _)]

theorem cleanElems_Split (r : Bool) (p : GoString) :
    filepath.cleanElems r ((strings.Split p '/').foldl (filepath.cleanStep r) []) :=
  foldl_cleanStep_cleanElems r _ [] trivial (Split_mem_no_sep '/' _ p (Nat.le_refl _))

theorem Join_eq_nil_of_cleanElems (r : Bool) (out : List GoString)
    (h : filepath.cleanElems r out) (hb : strings.Join out.reverse "/".toList = []) :
    out = [] := by
  by_contra hne
  have hrev : out.reverse ≠ [] := fun e => hne (List.reverse_eq_nil_iff.mp e)
  have hs := Split_Join out.reverse hrev
    (fun x hx => (cleanElems_mem r out h x (List.mem_reverse.mp hx)).2)
  rw [hb, Split_of_not_mem [] '/' (by simp)] at hs
  have hmem : ([] : GoString) ∈ out := by
    rw [← List.mem_reverse, ← hs]
    simp
  exact (cleanElems_mem r out h [] hmem).1 rfl

theorem foldl_Split_render (r : Bool) (out : List GoString) (h : filepath.cleanElems r out) :
    (strings.Split (filepath.render r out) '/').foldl (filepath.cleanStep r) [] = out := by
  have hfree : ∀ x ∈ out.reverse, '/' ∉ x :=
    fun x hx => (cleanElems_mem r out h x (List.mem_reverse.mp hx)).2
  have hskip : filepath.cleanStep r [] [] = [] := by simp [filepath.cleanStep]
  unfold filepath.render
  split
  · rw [show '/' :: strings.Join out.reverse "/".toList =
        [] ++ '/' :: strings.Join out.reverse "/".toList from rfl,
      Split_append [] _ '/' (by simp), List.foldl_cons, hskip]
    by_cases ho : out = []
    · subst ho
      simp [strings.Join, List.intercalate, Split_of_not_mem [] '/' (by simp), hskip]
    · have hrev : out.reverse ≠ [] := fun e => ho (List.reverse_eq_nil_iff.mp e)
      rw [Split_Join out.reverse hrev hfree]
      exact foldl_cleanStep_reverse r out h
  · split
    · rename_i hb
      have ho := Join_eq_nil_of_cleanElems r out h hb
      subst ho
      rw [Split_of_not_mem ".".toList '/' (by decide)]
      simp [filepath.cleanStep]
    · rename_i hb
      have ho : out ≠ [] := by
        intro e
        subst e
        exact hb rfl
      have hrev : out.reverse ≠ [] := fun e => ho (List.reverse_eq_nil_iff.mp e)
      rw [Split_Join out.reverse hrev hfree]
      exact foldl_cleanStep_reverse r out h

theorem Join_cons_head (x : GoString) (l : List GoString) :
    ∃ t, strings.Join (x :: l) "/".toList = x ++ t := by
  cases l with
  | nil => exact ⟨[], by simp [strings.Join, List.intercalate]⟩
  | cons y l =>
    refine ⟨'/' :: strings.Join (y :: l) "/".toList, ?_⟩
    simp [strings.Join, List.intercalate]

theorem render_head (r : Bool) (out : List GoString) (h : filepath.cleanElems r out) :
    ∃ c rest, filepath.render r out = c :: rest ∧ decide (c = '/') = r := by
  unfold filepath.render
  cases r with
  | true => exact ⟨'/', strings.Join out.reverse "/".toList, by simp, by simp⟩
  | false =>
    simp only [Bool.false_eq_true, if_false]
    split
    · exact ⟨'.', [], rfl, by decide⟩
    · rename_i hb
      cases hrev : out.reverse with
      | nil =>
        rw [hrev] at hb
        exact absurd rfl hb
      | cons x l =>
        have hx : x ∈ out := by
          rw [← List.mem_reverse, hrev]
          exact List.mem_cons_self x l
        obtain ⟨hxne, hxfree⟩ := cleanElems_mem false out h x hx
        obtain ⟨t, ht⟩ := Join_cons_head x l
        cases x with
        | nil => exact absurd rfl hxne
        | cons c x' =>
          refine ⟨c, x' ++ t, by rw [ht]; rfl, ?_⟩
          have : c ≠ '/' := fun e => hxfree (by simp [e])
          simpa using this

theorem Clean_append (c : Char) (rest e : GoString) :
    filepath.Clean ((c :: rest) ++ '/' :: e) = filepath.render (decide (c = '/'))
      ((strings.Split e '/').foldl (filepath.cleanStep (decide (c = '/')))
        ((strings.Split (c :: rest) '/').foldl (filepath.cleanStep (decide (c = '/'))) [])) := by
  rw [List.cons_append, Clean_eq_render, ← List.cons_append,
    Split_append_any '/' _ _ _ (Nat.le_refl _), List.foldl_append]

theorem Clean_ne_nil (p : GoString) : filepath.Clean p ≠ [] := by
  cases p with
  | nil => simp [filepath.Clean]
  | cons c rest =>
    rw [Clean_eq_render]
    obtain ⟨c1, r1, h1, -⟩ := render_head _ _ (cleanElems_Split (decide (c = '/')) (c :: rest))
    rw [h1]
    simp

/-- Cleaning a path, adding an element and cleaning again gives what cleaning
the path with the element added gives. -/
theorem Clean_Clean_append (p e : GoString) (hp : p ≠ []) :
    filepath.Clean (filepath.Clean p ++ '/' :: e) = filepath.Clean (p ++ '/' :: e) := by
  cases p with
  | nil => exact absurd rfl hp
  | cons c rest =>
    have hgood := cleanElems_Split (decide (c = '/')) (c :: rest)
    obtain ⟨c1, r1, h1, hr⟩ := render_head _ _ hgood
    rw [Clean_append, Clean_eq_render c rest, h1, Clean_append, ← h1, hr,
      foldl_Split_render _ _ hgood]

/-! ## Joined paths -/

theorem Join_two (a b : GoString) (ha : a ≠ []) :
    filepath.Join [a, b] = filepath.Clean (a ++ '/' :: b) := by
  simp [filepath.Join, ha, strings.Join, List.intercalate]

theorem Join_nil_two (b : GoString) (hb : b ≠ []) :
    filepath.Join [[], b] = filepath.Clean b := by
  simp [filepath.Join, hb, strings.Join, List.intercalate]

theorem Join_three (a b c : GoString) (hb : b ≠ []) :
    filepath.Join [a, b, c] =
      filepath.Clean ((if a = [] then b else a ++ '/' :: b) ++ '/' :: c) := by
  by_cases ha : a = []
  · simp [filepath.Join, ha, hb, strings.Join, List.intercalate]
  · simp [filepath.Join, ha, strings.Join, List.intercalate]

theorem Join_four (a b c d : GoString) (hb : b ≠ []) :
    filepath.Join [a, b, c, d] =
      filepath.Clean ((if a = [] then b else a ++ '/' :: b) ++ '/' :: (c ++ '/' :: d)) := by
  by_cases ha : a = []
  · simp [filepath.Join, ha, hb, strings.Join, List.intercalate]
  · simp [filepath.Join, ha, strings.Join, List.intercalate]

theorem Join_base_ne_nil (a b : GoString) (hb : b ≠ []) :
    (if a = [] then b else a ++ '/' :: b) ≠ [] := by
  split
  · exact hb
  · simp

/-- Joining step by step, as `GradleDir` and `Setup` do, gives the join of the
four elements. -/
theorem Join_nested (a b c d : GoString) (hb : b ≠ []) :
    filepath.Join [filepath.Join [filepath.Join [a, b], c], d] = filepath.Join [a, b, c, d] := by
  have hbase := Join_base_ne_nil a b hb
  have h1 : filepath.Join [a, b] = filepath.Clean (if a = [] then b else a ++ '/' :: b) := by
    by_cases ha : a = []
    · rw [if_pos ha, ha]
      exact Join_nil_two b hb
    · rw [if_neg ha]
      exact Join_two a b ha
  rw [Join_four a b c d hb, h1, Join_two _ c (Clean_ne_nil _), Join_two _ d (Clean_ne_nil _),
    Clean_Clean_append _ c hbase, Clean_Clean_append _ d (by simp), List.append_assoc]
  rfl

/-! ## The characters of a joined path -/

theorem mem_of_mem_Split (sep : Char) : ∀ (n : Nat) (s : GoString), s.length ≤ n →
    ∀ x ∈ strings.Split s sep, ∀ c ∈ x, c ∈ s := by
  intro n
  induction n with
  | zero =>
    intro s h x hx c hc
    have : s = [] := List.length_eq_zero.mp (Nat.le_zero.mp h)
    subst this
    rw [Split_of_not_mem [] sep (by simp)] at hx
    simp at hx
    subst hx
    exact hc
  | succ n ih =>
    intro s h x hx c hc
    by_cases hs : sep ∈ s
    · obtain ⟨a, b, rfl, hna⟩ := exists_first_cut sep s hs
      rw [Split_append a b sep hna] at hx
      rcases List.mem_cons.mp hx with rfl | hx
      · exact List.mem_append_left _ hc
      · have hlen : b.length ≤ n := by
          simp only [List.length_append, List.length_cons] at h
          omega
        exact List.mem_append_right _ (List.mem_cons_of_mem _ (ih b hlen x hx c hc))
    · rw [Split_of_not_mem s sep hs] at hx
      simp at hx
      subst hx
      exact hc

theorem mem_cleanStep (r : Bool) (out : List GoString) (e x : GoString)
    (h : x ∈ filepath.cleanStep r out e) : x ∈ out ∨ x = e := by
  unfold filepath.cleanStep at h
  split at h
  · exact Or.inl h
  · split at h
    · cases out with
      | nil =>
        simp only at h
        split at h
        · exact Or.inl h
        · right; simpa using h
      | cons last before =>
        simp only at h
        split at h
        · rcases List.mem_cons.mp h with h | h
          · exact Or.inr h
          · exact Or.inl h
        · exact Or.inl (List.mem_cons_of_mem _ h)
    · rcases List.mem_cons.mp h with h | h
      · exact Or.inr h
      · exact Or.inl h

theorem mem_foldl_cleanStep (r : Bool) : ∀ (l out : List GoString) (x : GoString),
    x ∈ l.foldl (filepath.cleanStep r) out → x ∈ out ∨ x ∈ l := by
  intro l
  induction l with
  | nil => intro out x h; exact Or.inl h
  | cons e l ih =>
    intro out x h
    rcases ih _ x h with h | h
    · rcases mem_cleanStep r out e x h with h | h
      · exact Or.inl h
      · exact Or.inr (by simp [h])
    · exact Or.inr (List.mem_cons_of_mem e h)

theorem mem_Join (l : List GoString) (c : Char) (h : c ∈ strings.Join l "/".toList) :
    c = '/' ∨ ∃ x ∈ l, c ∈ x := by
  induction l using List.reverseRecOn with
  | nil => simp [strings.Join, List.intercalate] at h
  | append_singleton l x ih =>
    rw [Join_append_singleton] at h
    split at h
    · exact Or.inr ⟨x, by simp, h⟩
    · rcases List.mem_append.mp h with h | h
      · rcases ih h with h | ⟨y, hy, hc⟩
        · exact Or.inl h
        · exact Or.inr ⟨y, List.mem_append_left _ hy, hc⟩
      · rcases List.mem_cons.mp h with h | h
        · exact Or.inl h
        · exact Or.inr ⟨x, by simp, h⟩

theorem mem_Clean (p : GoString) (c : Char) (h : c ∈ filepath.Clean p) :
    c = '/' ∨ c = '.' ∨ c ∈ p := by
  cases p with
  | nil =>
    simp [filepath.Clean] at h
    exact Or.inr (Or.inl h)
  | cons a rest =>
    rw [Clean_eq_render] at h
    have hbody : ∀ d, d ∈ strings.Join
        ((strings.Split (a :: rest) '/').foldl (filepath.cleanStep (decide (a = '/')))
          []).reverse "/".toList → d = '/' ∨ d ∈ a :: rest := by
      intro d hd
      rcases mem_Join _ d hd with hd | ⟨x, hx, hdx⟩
      · exact Or.inl hd
      · right
        rcases mem_foldl_cleanStep _ _ _ x (List.mem_reverse.mp hx) with hx | hx
        · simp at hx
        · exact mem_of_mem_Split '/' _ _ (Nat.le_refl _) x hx d hdx
    unfold filepath.render at h
    split at h
    · rcases List.mem_cons.mp h with h | h
      · exact Or.inl h
      · rcases hbody c h with h | h
        · exact Or.inl h
        · exact Or.inr (Or.inr h)
    · split at h
      · simp at h
        exact Or.inr (Or.inl h)
      · rcases hbody c h with h | h
        · exact Or.inl h
        · exact Or.inr (Or.inr h)

theorem mem_filepath_Join : ∀ (l : List GoString) (c : Char), c ∈ filepath.Join l →
    c = '/' ∨ c = '.' ∨ ∃ x ∈ l, c ∈ x := by
  intro l
  induction l with
  | nil => intro c h; simp [filepath.Join] at h
  | cons e rest ih =>
    intro c h
    unfold filepath.Join at h
    split at h
    · rcases ih c h with h | h | ⟨x, hx, hc⟩
      · exact Or.inl h
      · exact Or.inr (Or.inl h)
      · exact Or.inr (Or.inr ⟨x, List.mem_cons_of_mem e hx, hc⟩)
    · rcases mem_Clean _ c h with h | h | h
      · exact Or.inl h
      · exact Or.inr (Or.inl h)
      · rcases mem_Join _ c h with h | h
        · exact Or.inl h
        · exact Or.inr (Or.inr h)

/-! ## The Gradle environment -/

theorem cleanStep_plain (r : Bool) (out : List GoString) (e : GoString)
    (h1 : e ≠ []) (h2 : e ≠ ".".toList) (h3 : e ≠ "..".toList) :
    filepath.cleanStep r out e = e :: out := by
  unfold filepath.cleanStep
  rw [if_neg (by simp only [not_or]; exact ⟨h1, h2⟩), if_neg h3]

theorem render_cons_cons (r : Bool) (out : List GoString) (x y : GoString) (hx : x ≠ []) :
    filepath.render r (y :: x :: out) = filepath.render r (x :: out) ++ '/' :: y := by
  have hne : (x :: out).reverse ≠ [] := by simp
  have hj : strings.Join (y :: x :: out).reverse "/".toList =
      strings.Join (x :: out).reverse "/".toList ++ '/' :: y := by
    rw [List.reverse_cons (a := y), Join_append_singleton, if_neg hne]
  have hb : strings.Join (x :: out).reverse "/".toList ≠ [] := by
    rw [List.reverse_cons, Join_append_singleton]
    split
    · exact hx
    · simp
  unfold filepath.render
  rw [hj]
  cases r with
  | true =>
    simp only [if_true]
    rfl
  | false =>
    simp only [Bool.false_eq_true, if_false]
    rw [if_neg hb, if_neg (by simp)]

theorem render_cons_inj (r : Bool) (out : List GoString) (x y : GoString)
    (hx : x ≠ []) (hy : y ≠ []) (h : filepath.render r (x :: out) = filepath.render r (y :: out)) :
    x = y := by
  have hj : ∀ z : GoString, z ≠ [] → filepath.render r (z :: out) =
      ((if r then "/".toList else []) ++
        (if out.reverse = [] then [] else strings.Join out.reverse "/".toList ++ "/".toList)) ++
        z := by
    intro z hz
    have hb : strings.Join (z :: out).reverse "/".toList =
        (if out.reverse = [] then [] else strings.Join out.reverse "/".toList ++ "/".toList) ++
          z := by
      rw [List.reverse_cons, Join_append_singleton]
      split <;> simp
    have hne : strings.Join (z :: out).reverse "/".toList ≠ [] := by
      rw [hb]
      simp [hz]
    unfold filepath.render
    cases r with
    | true =>
      simp only [if_true]
      rw [hb]
      rfl
    | false =>
      simp only [Bool.false_eq_true, if_false]
      rw [if_neg hne, hb]
      rfl
  rw [hj x hx, hj y hy] at h
  exact List.append_cancel_left h

theorem Clean_append_plain (p : GoString) (hp : p ≠ []) :
    ∃ (r : Bool) (out : List GoString), ∀ x, plainVersion x →
      filepath.Clean (p ++ '/' :: x) = filepath.render r (x :: out) := by
  cases p with
  | nil => exact absurd rfl hp
  | cons c rest =>
    refine ⟨decide (c = '/'),
      (strings.Split (c :: rest) '/').foldl (filepath.cleanStep (decide (c = '/'))) [],
      fun x hx => ?_⟩
    rw [Clean_append, Split_of_not_mem x '/' hx.2.1, List.foldl_cons, List.foldl_nil,
      cleanStep_plain _ _ x hx.1 hx.2.2.1 hx.2.2.2]

theorem Clean_append_plain_bin (p : GoString) (hp : p ≠ []) :
    ∃ (r : Bool) (out : List GoString), ∀ x, plainVersion x →
      filepath.Clean (p ++ '/' :: (x ++ '/' :: "bin".toList)) =
        filepath.render r (x :: out) ++ '/' :: "bin".toList := by
  cases p with
  | nil => exact absurd rfl hp
  | cons c rest =>
    refine ⟨decide (c = '/'),
      (strings.Split (c :: rest) '/').foldl (filepath.cleanStep (decide (c = '/'))) [],
      fun x hx => ?_⟩
    rw [Clean_append, Split_append x _ '/' hx.2.1,
      Split_of_not_mem "bin".toList '/' (by decide), List.foldl_cons, List.foldl_cons,
      List.foldl_nil, cleanStep_plain _ _ x hx.1 hx.2.2.1 hx.2.2.2,
      cleanStep_plain _ _ "bin".toList (by decide) (by decide) (by decide),
      render_cons_cons _ _ _ _ hx.1]

theorem plainVersion_gradle (v : GoString) (h : '/' ∉ v) :
    plainVersion ("gradle-".toList ++ v) := by
  refine ⟨by simp, ?_, by simp, by simp⟩
  intro hm
  rcases List.mem_append.mp hm with hm | hm
  · exact absurd hm (by decide)
  · exact h hm

/-- C14: for every Gradle tool spec and environment whose texts hold no NUL
byte (the texts a process environment can hold), `GradleBuildTool.Setup`
returns no error and leaves the environment in which `PATH` is the join of
the shared cache directory, `gradle`, `gradle-<version>` and `bin`, followed
by `:` and the former `PATH`, `GRADLE_USER_HOME` is the join of the package
cache directory, `gradle-home` and the version, and every other variable is
as before; for two different plain versions the two directories put in front
of `PATH` differ and the two `GRADLE_USER_HOME` directories differ. -/
theorem GradleBuildTool_Setup_environment (spec : BuildToolSpec) (E : Environ)
    (hS : Char.ofNat 0 ∉ spec.SharedCacheDir) (hP : Char.ofNat 0 ∉ spec.PackageCacheDir)
    (hV : Char.ofNat 0 ∉ spec.Version) (hE : Char.ofNat 0 ∉ os.Getenv E "PATH".toList) :
    ((NewGradleBuildTool spec).Setup E).1 = none ∧
    ((NewGradleBuildTool spec).Setup E).2 "PATH".toList =
      some (filepath.Join [spec.SharedCacheDir, "gradle".toList,
          "gradle-".toList ++ spec.Version, "bin".toList] ++ ":".toList ++
        os.Getenv E "PATH".toList) ∧
    ((NewGradleBuildTool spec).Setup E).2 "GRADLE_USER_HOME".toList =
      some (filepath.Join [spec.PackageCacheDir, "gradle-home".toList, spec.Version]) ∧
    (∀ k, k ≠ "PATH".toList → k ≠ "GRADLE_USER_HOME".toList →
      ((NewGradleBuildTool spec).Setup E).2 k = E k) ∧
    (∀ v2, plainVersion spec.Version → plainVersion v2 → spec.Version ≠ v2 →
      filepath.Join [spec.SharedCacheDir, "gradle".toList, "gradle-".toList ++ spec.Version,
          "bin".toList] ≠
        filepath.Join [spec.SharedCacheDir, "gradle".toList, "gradle-".toList ++ v2,
          "bin".toList] ∧
      filepath.Join [spec.PackageCacheDir, "gradle-home".toList, spec.Version] ≠
        filepath.Join [spec.PackageCacheDir, "gradle-home".toList, v2]) := by
  have h0 : Char.ofNat 0 ≠ '/' := by decide
  have h0' : Char.ofNat 0 ≠ '.' := by decide
  have hcmd : filepath.Join [(NewGradleBuildTool spec).GradleDir, "bin".toList] =
      filepath.Join [spec.SharedCacheDir, "gradle".toList, "gradle-".toList ++ spec.Version,
        "bin".toList] :=
    Join_nested spec.SharedCacheDir "gradle".toList ("gradle-".toList ++ spec.Version)
      "bin".toList (by decide)
  have hpathnul : Char.ofNat 0 ∉ filepath.Join [spec.SharedCacheDir, "gradle".toList,
      "gradle-".toList ++ spec.Version, "bin".toList] ++ ":".toList ++
      os.Getenv E "PATH".toList := by
    intro hm
    rcases List.mem_append.mp hm with hm | hm
    · rcases List.mem_append.mp hm with hm | hm
      · rcases mem_filepath_Join _ _ hm with h | h | ⟨x, hx, hc⟩
        · exact h0 h
        · exact h0' h
        · simp only [List.mem_cons, List.mem_singleton, List.not_mem_nil, or_false] at hx
          rcases hx with rfl | rfl | rfl | rfl
          · exact hS hc
          · exact absurd hc (by decide)
          · rcases List.mem_append.mp hc with hc | hc
            · exact absurd hc (by decide)
            · exact hV hc
          · exact absurd hc (by decide)
      · exact absurd hm (by decide)
    · exact hE hm
  have hhomenul : Char.ofNat 0 ∉
      filepath.Join [spec.PackageCacheDir, "gradle-home".toList, spec.Version] := by
    intro hm
    rcases mem_filepath_Join _ _ hm with h | h | ⟨x, hx, hc⟩
    · exact h0 h
    · exact h0' h
    · simp only [List.mem_cons, List.mem_singleton, List.not_mem_nil, or_false] at hx
      rcases hx with rfl | rfl | rfl
      · exact hP hc
      · exact absurd hc (by decide)
      · exact hV hc
  have hset1 : os.Setenv E "PATH".toList
      (filepath.Join [spec.SharedCacheDir, "gradle".toList, "gradle-".toList ++ spec.Version,
        "bin".toList] ++ ":".toList ++ os.Getenv E "PATH".toList) =
      (fun k => if k = "PATH".toList then
          some (filepath.Join [spec.SharedCacheDir, "gradle".toList,
            "gradle-".toList ++ spec.Version, "bin".toList] ++ ":".toList ++
            os.Getenv E "PATH".toList)
        else E k, none) := by
    unfold os.Setenv
    rw [if_neg]
    simp only [not_or]
    exact ⟨by decide, by decide, by decide, hpathnul⟩
  have hset2 : ∀ E1 : Environ, os.Setenv E1 "GRADLE_USER_HOME".toList
      (filepath.Join [spec.PackageCacheDir, "gradle-home".toList, spec.Version]) =
      (fun k => if k = "GRADLE_USER_HOME".toList then
          some (filepath.Join [spec.PackageCacheDir, "gradle-home".toList, spec.Version])
        else E1 k, none) := by
    intro E1
    unfold os.Setenv
    rw [if_neg]
    simp only [not_or]
    exact ⟨by decide, by decide, by decide, hhomenul⟩
  have hsetup : ∀ k, ((NewGradleBuildTool spec).Setup E).2 k =
      if k = "GRADLE_USER_HOME".toList then
          some (filepath.Join [spec.PackageCacheDir, "gradle-home".toList, spec.Version])
        else if k = "PATH".toList then
          some (filepath.Join [spec.SharedCacheDir, "gradle".toList,
            "gradle-".toList ++ spec.Version, "bin".toList] ++ ":".toList ++
            os.Getenv E "PATH".toList)
        else E k := by
    intro k
    unfold GradleBuildTool.Setup
    simp only
    rw [hcmd, hset1]
    exact congrFun (congrArg Prod.fst (hset2 _)) k
  refine ⟨rfl, ?_, ?_, ?_, ?_⟩
  · rw [hsetup, if_neg (by decide), if_pos rfl]
  · rw [hsetup, if_pos rfl]
  · intro k hk1 hk2
    rw [hsetup, if_neg hk2, if_neg hk1]
  · intro v2 hv1 hv2 hne
    constructor
    · rw [Join_four _ _ _ _ (by decide), Join_four _ _ _ _ (by decide)]
      obtain ⟨r, out, hclean⟩ := Clean_append_plain_bin
        (if spec.SharedCacheDir = [] then "gradle".toList
          else spec.SharedCacheDir ++ '/' :: "gradle".toList)
        (Join_base_ne_nil _ _ (by decide))
      rw [hclean _ (plainVersion_gradle _ hv1.2.1), hclean _ (plainVersion_gradle _ hv2.2.1)]
      intro heq
      have h1 := List.append_cancel_right heq
      have h2 := render_cons_inj r out _ _ (by simp) (by simp) h1
      exact hne (List.append_cancel_left h2)
    · rw [Join_three _ _ _ (by decide), Join_three _ _ _ (by decide)]
      obtain ⟨r, out, hclean⟩ := Clean_append_plain
        (if spec.PackageCacheDir = [] then "gradle-home".toList
          else spec.PackageCacheDir ++ '/' :: "gradle-home".toList)
        (Join_base_ne_nil _ _ (by decide))
      rw [hclean _ hv1, hclean _ hv2]
      intro heq
      exact hne (render_cons_inj r out _ _ hv1.1 hv2.1 heq)

/-- Witness of C14: Gradle 6.0 with the caches under `/cache` and `/pkg`, in
an environment whose `PATH` is `/usr/bin`. -/
theorem GradleBuildTool_Setup_environment_witness :
    ((NewGradleBuildTool BuildToolSpec.sample).Setup Environ.sample).2 "PATH".toList =
      some "/cache/gradle/gradle-6.0/bin:/usr/bin".toList ∧
    ((NewGradleBuildTool BuildToolSpec.sample).Setup Environ.sample).2
      "GRADLE_USER_HOME".toList = some "/pkg/gradle-home/6.0".toList ∧
    filepath.Join ["/pkg".toList, "gradle-home".toList, "6.0".toList] ≠
      filepath.Join ["/pkg".toList, "gradle-home".toList, "6.1".toList] :=
  ⟨(GradleBuildTool_Setup_environment BuildToolSpec.sample Environ.sample
      (by decide) (by decide) (by decide) (by decide)).2.1,
    (GradleBuildTool_Setup_environment BuildToolSpec.sample Environ.sample
      (by decide) (by decide) (by decide) (by decide)).2.2.1,
    ((GradleBuildTool_Setup_environment BuildToolSpec.sample Environ.sample
      (by decide) (by decide) (by decide) (by decide)).2.2.2.2 "6.1".toList
      ⟨by decide, by decide, by decide, by decide⟩
      ⟨by decide, by decide, by decide, by decide⟩ (by decide)).2⟩

end Yb
